import Mathlib

/-
  Verification of the LVGL UI Automation Framework core
  (tcp_server.c, test_harness.c, test_harness.h).

  Shallow embedding conventions:
  - C strings are List Char (a C string cannot contain an embedded NUL,
    so Lean lists of characters model them faithfully).
  - lv_obj_t pointers are Nat, with 0 standing for NULL.
  - C int results keep their source values (TEST_OK = 0, negative error
    codes) as Int.
  - The byte-cursor of json_parser_t (data, pos) is modelled by passing
    the remaining suffix of the input list: every C helper only moves
    pos forward, and find_key always rewinds to position 0 of the same
    line, so the suffix representation is exact.
-/

namespace UIAuto

/-! ### Error codes and constants (test_harness.h) -/

def TEST_OK : Int := 0
def TEST_ERROR_NOT_FOUND : Int := -1
def TEST_ERROR_INVALID_PARAM : Int := -2
def TEST_ERROR_QUEUE_FULL : Int := -6

def MAX_WIDGETS : Nat := 64
def MAX_ID_LEN : Nat := 32
def MAX_COMMAND_QUEUE : Nat := 32

/-! ### Character classes (ctype.h as used by tcp_server.c) -/

/-- C isdigit for the ASCII range: the characters 0 through 9. -/
def cIsDigit (c : Char) : Bool := 48 ≤ c.toNat && c.toNat ≤ 57

/-- C isspace in the default locale: space, tab, newline, vertical tab,
    form feed, carriage return. -/
def cIsSpace (c : Char) : Bool := c.toNat = 32 || (9 ≤ c.toNat && c.toNat ≤ 13)

/-- Two's-complement wrap of a nonnegative accumulated value into a C int,
    as produced by the usual 32-bit compilers; inputs below 2^31 are
    unchanged.  parse_int accumulates value*10 + digit in a C int. -/
def wrap32 (n : Nat) : Int :=
  if n % 4294967296 < 2147483648 then ((n % 4294967296 : Nat) : Int)
  else ((n % 4294967296 : Nat) : Int) - 4294967296

/-! ### Widget registry (test_harness.c, reg_widget / find_widget)

    The C registry is a fixed array widget_registry[MAX_WIDGETS] together
    with registry_size; cells at index registry_size and beyond are never
    read, so the live prefix is modelled as a list whose length is
    registry_size. -/

structure WEntry where
  id : List Char
  obj : Nat
  active : Bool
deriving DecidableEq, Repr

/-- The duplicate-id scan of reg_widget: find the first active entry with
    exactly this id and overwrite its handle, leaving the id in place. -/
def updDup (id : List Char) (obj : Nat) : List WEntry → Option (List WEntry)
  | [] => none
  | e :: rest =>
      if e.active && e.id = id then some ({ e with obj := obj } :: rest)
      else (updDup id obj rest).map (e :: ·)

/-- reg_widget(id, obj).  A none id models a NULL pointer argument.
    Mirrors the C order of checks: the combined null/full test first, then
    the duplicate scan, then the append with strncpy truncation to
    MAX_ID_LEN - 1 = 31 bytes. -/
def regWidget (st : List WEntry) (id : Option (List Char)) (obj : Nat) :
    Int × List WEntry :=
  match id with
  | none => (TEST_ERROR_INVALID_PARAM, st)
  | some id =>
      if obj = 0 || st.length ≥ MAX_WIDGETS then (TEST_ERROR_INVALID_PARAM, st)
      else
        match updDup id obj st with
        | some st' => (TEST_OK, st')
        | none => (TEST_OK, st ++ [⟨id.take (MAX_ID_LEN - 1), obj, true⟩])

/-- find_widget(id): linear scan for the first active entry with this exact
    id; returns the stored handle, or 0 (NULL) when there is none. -/
def findWidget (st : List WEntry) (id : List Char) : Nat :=
  match st with
  | [] => 0
  | e :: rest => if e.active && e.id = id then e.obj else findWidget rest id

/-- Run a sequence of reg_widget calls (all with non-NULL ids) from a
    starting registry state. -/
def runRegs (st : List WEntry) : List (List Char × Nat) → List WEntry
  | [] => st
  | (id, obj) :: rest => runRegs (regWidget st (some id) obj).2 rest

/-! ### Handler effects

    Each test_* handler in test_harness.c performs its operation (click,
    screen navigation, text change, delay, ...) against the LVGL black box
    once its widget lookup succeeds.  The operations themselves are out of
    scope; the model records each performed operation as one effect. -/

inductive Eff
  | click (id : List Char)
  | longpress (id : List Char) (ms : Nat)
  | swipe (x1 y1 x2 y2 : Int)
  | keyEvent (code : Int)
  | getText (id : List Char)
  | setText (id : List Char) (text : List Char)
  | screenshot
  | waitMs (ms : Nat)
  | clickAt (x y : Int)
  | mouseMove (x y : Int)
  | drag (x1 y1 x2 y2 : Int)
deriving DecidableEq, Repr

/-- The UI-side environment the handlers read: the widget registry, and an
    oracle for the text a get_text on a given handle would produce (the
    LVGL label contents; none models a NULL result). -/
structure Env where
  reg : List WEntry
  textOf : Nat → Option (List Char)

/-- Results of the externally implemented operations.  test_click_at,
    test_mouse_move and test_drag are called by tcp_server.c but their
    definitions are not among the repository sources; capture_screenshot
    (screenshot.c) wraps the SDL surface and PNG encoder, whose outcome
    depends on the display.  Their return values are therefore parameters
    of the model. -/
structure ExtEnv where
  clickAtRes : Int → Int → Int
  mouseMoveRes : Int → Int → Int
  dragRes : Int → Int → Int → Int → Int
  shotRes : Int
  shotData : Bool
  shotLen : Nat

/-- test_click(id): find_widget, NULL gives TEST_ERROR_NOT_FOUND; every
    branch on a found widget returns TEST_OK. -/
def testClick (env : Env) (id : List Char) : Int × List Eff :=
  if findWidget env.reg id = 0 then (TEST_ERROR_NOT_FOUND, [])
  else (TEST_OK, [.click id])

/-- test_longpress(id, ms): as test_click, with the duration carried along. -/
def testLongpress (env : Env) (id : List Char) (ms : Nat) : Int × List Eff :=
  if findWidget env.reg id = 0 then (TEST_ERROR_NOT_FOUND, [])
  else (TEST_OK, [.longpress id ms])

/-- test_swipe: navigates screens from the swipe direction and always
    returns TEST_OK. -/
def testSwipe (x1 y1 x2 y2 : Int) : Int × List Eff :=
  (TEST_OK, [.swipe x1 y1 x2 y2])

/-- test_key_event: timing simulation only, always TEST_OK. -/
def testKeyEvent (code : Int) : Int × List Eff :=
  (TEST_OK, [.keyEvent code])

/-- test_get_text(id): NULL when the widget is unknown, otherwise the text
    the UI black box yields for the handle (which may itself be NULL). -/
def testGetText (env : Env) (id : List Char) : Option (List Char) × List Eff :=
  if findWidget env.reg id = 0 then (none, [])
  else (env.textOf (findWidget env.reg id), [.getText id])

/-- test_set_text(id, text): the text argument from process_command is
    never NULL, so only the widget lookup can fail. -/
def testSetText (env : Env) (id text : List Char) : Int × List Eff :=
  if findWidget env.reg id = 0 then (TEST_ERROR_NOT_FOUND, [])
  else (TEST_OK, [.setText id text])

/-- test_screenshot: result code, data pointer non-nullness and byte
    length of capture_screenshot. -/
def testScreenshot (ext : ExtEnv) : Int × Bool × Nat × List Eff :=
  (ext.shotRes, ext.shotData, ext.shotLen, [.screenshot])

/-- test_wait(ms): sleeps, no result. -/
def testWait (ms : Nat) : List Eff := [.waitMs ms]

/-! ### Command queue (test_harness.c / test_harness.h)

    command_t is a tagged union; the queue is a 32-slot circular buffer
    with head, tail and size.  Slots beyond the live region keep their old
    contents, exactly as the C array does, so the slot array is a list of
    fixed length 32. -/

inductive CmdVal
  | click (id : List Char)
  | longpress (id : List Char) (ms : Nat)
  | swipe (x1 y1 x2 y2 : Int)
  | keyEvent (code : Int)
  | getText (id : List Char)
  | setText (id : List Char) (text : List Char)
  | screenshot
  | waitMs (ms : Nat)
deriving DecidableEq, Repr

/-- One command_t: the command value plus its response slot. -/
structure Slot where
  cmd : CmdVal
  result : Int
  responseText : Option (List Char)
  responseData : Bool
  responseLen : Nat
  completed : Bool
deriving DecidableEq, Repr

/-- The all-zero command_t produced by memset in command_queue_init:
    type CMD_CLICK (= 0), empty id, no response, not completed. -/
def zeroSlot : Slot :=
  { cmd := .click [], result := 0, responseText := none,
    responseData := false, responseLen := 0, completed := false }

structure Queue where
  slots : List Slot
  head : Nat
  tail : Nat
  size : Nat
deriving DecidableEq, Repr

/-- command_queue_init: head = tail = size = 0, all slots zeroed. -/
def queueInit : Queue :=
  { slots := List.replicate MAX_COMMAND_QUEUE zeroSlot,
    head := 0, tail := 0, size := 0 }

/-- The slot contents command_queue_push writes: the copied command with
    its response slot reinitialised (completed = 0, result = TEST_OK,
    response fields cleared). -/
def initSlot (c : CmdVal) : Slot :=
  { cmd := c, result := TEST_OK, responseText := none,
    responseData := false, responseLen := 0, completed := false }

/-- command_queue_push: full means immediate TEST_ERROR_QUEUE_FULL with
    nothing changed; otherwise the command is copied into the tail slot
    with a fresh response slot, and tail and size advance. -/
def queuePush (q : Queue) (c : CmdVal) : Int × Queue :=
  if q.size ≥ MAX_COMMAND_QUEUE then (TEST_ERROR_QUEUE_FULL, q)
  else
    (TEST_OK,
      { q with
        slots := q.slots.set q.tail (initSlot c),
        tail := (q.tail + 1) % MAX_COMMAND_QUEUE,
        size := q.size + 1 })

/-- Push a whole list of commands in order, collecting the return codes. -/
def pushAll (q : Queue) : List CmdVal → List Int × Queue
  | [] => ([], q)
  | c :: cs =>
      let (r, q') := queuePush q c
      let (rs, q'') := pushAll q' cs
      (r :: rs, q'')

/-- The switch statement of command_queue_process_all, acting on the slot
    the head points to: run the handler, record its result (and response
    text and data for get_text and screenshot), then set completed = 1. -/
def execSlot (env : Env) (ext : ExtEnv) (s : Slot) : Slot × List Eff :=
  match s.cmd with
  | .click id =>
      let r := testClick env id
      ({ s with result := r.1, completed := true }, r.2)
  | .longpress id ms =>
      let r := testLongpress env id ms
      ({ s with result := r.1, completed := true }, r.2)
  | .swipe x1 y1 x2 y2 =>
      let r := testSwipe x1 y1 x2 y2
      ({ s with result := r.1, completed := true }, r.2)
  | .keyEvent c =>
      let r := testKeyEvent c
      ({ s with result := r.1, completed := true }, r.2)
  | .getText id =>
      let r := testGetText env id
      ({ s with responseText := r.1,
                result := if r.1.isSome then TEST_OK else TEST_ERROR_NOT_FOUND,
                completed := true }, r.2)
  | .setText id text =>
      let r := testSetText env id text
      ({ s with result := r.1, completed := true }, r.2)
  | .screenshot =>
      let r := testScreenshot ext
      ({ s with result := r.1, responseData := r.2.1, responseLen := r.2.2.1,
                completed := true }, r.2.2.2)
  | .waitMs ms =>
      ({ s with result := TEST_OK, completed := true }, testWait ms)

/-- The drain loop of command_queue_process_all: while size > 0, execute
    the head slot in place, then advance head and decrement size, counting
    the commands processed.  The returned trace lists the executed command
    values in execution order. -/
def processAllGo (env : Env) (ext : ExtEnv) (q : Queue) (n : Nat)
    (tr : List CmdVal) : Nat × Queue × List CmdVal :=
  if _h : q.size = 0 then (n, q, tr)
  else
    let s := q.slots.getD q.head zeroSlot
    let s' := (execSlot env ext s).1
    let q' : Queue :=
      { q with slots := q.slots.set q.head s',
               head := (q.head + 1) % MAX_COMMAND_QUEUE,
               size := q.size - 1 }
    processAllGo env ext q' (n + 1) (tr ++ [s.cmd])
termination_by q.size
decreasing_by omega

/-- command_queue_process_all. -/
def processAll (env : Env) (ext : ExtEnv) (q : Queue) :
    Nat × Queue × List CmdVal :=
  processAllGo env ext q 0 []

/-! ### The minimal JSON parser (tcp_server.c)

    json_parser_t is a byte cursor (data, pos) over one request line; all
    helpers only move pos forward, and find_key rewinds to 0, so the
    cursor is modelled by the remaining suffix of the line. -/

/-- skip_whitespace. -/
def skipWs : List Char → List Char
  | [] => []
  | c :: cs => if cIsSpace c then skipWs cs else c :: cs

/-- Digit accumulation of parse_int: value = value * 10 + (c - 48). -/
def natOfDigits (ds : List Char) : Nat :=
  ds.foldl (fun a c => a * 10 + (c.toNat - 48)) 0

/-- parse_string(out, max_len): expects a double quote after optional
    whitespace, scans to the closing quote (failing at end of input), and
    copies the contents, truncated to max_len - 1 bytes.  Returns the
    copied bytes and the cursor after the closing quote. -/
def parseString (d : List Char) (maxLen : Nat) : Option (List Char × List Char) :=
  match skipWs d with
  | [] => none
  | c :: r =>
      if c = '"' then
        match r.dropWhile (fun x => x != '"') with
        | [] => none
        | _ :: after =>
            let content := r.takeWhile (fun x => x != '"')
            let len := if content.length ≥ maxLen then maxLen - 1
                       else content.length
            some (content.take len, after)
      else none

/-- parse_int: after optional whitespace, requires a decimal digit and
    accumulates the following digit run into a C int (-1 when the first
    character is not a digit, a minus sign included). -/
def parseInt (d : List Char) : Int × List Char :=
  match skipWs d with
  | [] => (-1, [])
  | c :: cs =>
      if cIsDigit c then
        (wrap32 (natOfDigits ((c :: cs).takeWhile cIsDigit)),
         (c :: cs).dropWhile cIsDigit)
      else (-1, c :: cs)

/-- The value-skipping step of find_key: a string value is skipped to just
    past its closing quote (or past the end when unterminated); a number
    value, optionally led by a minus sign, is skipped through its digits
    and dots; anything else is left in place. -/
def skipValue (d : List Char) : List Char :=
  match skipWs d with
  | [] => []
  | c :: cs =>
      if c = '"' then
        match cs.dropWhile (fun x => x != '"') with
        | _ :: after => after
        | [] => []
      else if cIsDigit c || c == '-' then
        (if c == '-' then cs else c :: cs).dropWhile
          (fun x => cIsDigit x || x == '.')
      else c :: cs

/-- The comma-skipping step of find_key. -/
def skipComma (d : List Char) : List Char :=
  match skipWs d with
  | [] => []
  | c :: cs => if c = ',' then cs else c :: cs

theorem skipWs_length_le (d : List Char) : (skipWs d).length ≤ d.length := by
  induction d with
  | nil => simp [skipWs]
  | cons c cs ih =>
      simp only [skipWs]
      split
      · exact Nat.le_succ_of_le ih
      · exact Nat.le_refl _

theorem dropWhileLenLe (p : Char → Bool) (l : List Char) :
    (l.dropWhile p).length ≤ l.length := by
  induction l with
  | nil => simp
  | cons c cs ih =>
      rw [List.dropWhile_cons]
      split
      · exact Nat.le_succ_of_le ih
      · exact Nat.le_refl _

theorem takeDropLen (p : Char → Bool) (l : List Char) :
    (l.takeWhile p).length + (l.dropWhile p).length = l.length := by
  conv_rhs => rw [← @List.takeWhile_append_dropWhile _ p l]
  rw [List.length_append]

theorem parseString_length {d k r : List Char} {m : Nat}
    (h : parseString d m = some (k, r)) : r.length + 2 ≤ d.length := by
  have hws := skipWs_length_le d
  unfold parseString at h
  split at h
  · exact absurd h (by simp)
  · rename_i c rest heq
    split at h
    · split at h
      · exact absurd h (by simp)
      · rename_i x after hdrop
        simp only [Option.some.injEq, Prod.mk.injEq] at h
        obtain ⟨-, hr⟩ := h
        subst hr
        have hlen := takeDropLen (fun x => x != '"') rest
        rw [hdrop] at hlen
        rw [heq] at hws
        simp only [List.length_cons] at hlen hws
        omega
    · exact absurd h (by simp)

theorem skipValue_length_le (d : List Char) : (skipValue d).length ≤ d.length := by
  have hws := skipWs_length_le d
  unfold skipValue
  split
  · simp
  case h_2 c cs heq =>
    rw [heq] at hws
    simp only [List.length_cons] at hws
    split
    · have hlen := takeDropLen (fun x => x != '"') cs
      split
      case h_1 x after hdrop =>
        rw [hdrop] at hlen
        simp only [List.length_cons] at hlen
        omega
      · simp
    · split
      · have h1 := dropWhileLenLe (fun x => cIsDigit x || x == '.')
          (if c == '-' then cs else c :: cs)
        have h2 : (if c == '-' then cs else c :: cs).length ≤ (c :: cs).length := by
          split <;> simp
        simp only [List.length_cons] at h2
        omega
      · simp only [List.length_cons]
        omega

theorem skipComma_length_le (d : List Char) : (skipComma d).length ≤ d.length := by
  have hws := skipWs_length_le d
  unfold skipComma
  split
  · simp
  · rename_i c cs heq
    rw [heq] at hws
    simp only [List.length_cons] at hws
    split
    · omega
    · simp only [List.length_cons]
      omega

/-- Outcome of one iteration of the find_key loop body. -/
inductive StepRes
  | found (d2 : List Char)
  | fail
  | next (d4 : List Char)
deriving DecidableEq, Repr

/-- One iteration of the find_key loop: stop when the input is exhausted
    or a closing brace follows the whitespace; parse a key string (into the
    64-byte current_key buffer) and expect a colon; stop at the value of
    the sought key, or skip the value and a following comma and continue. -/
def findKeyStep (key d : List Char) : StepRes :=
  if d.isEmpty then .fail
  else if (skipWs d).head? = some '}' then .fail
  else
    match parseString (skipWs d) 64 with
    | none => .fail
    | some (k, d1) =>
        match skipWs d1 with
        | [] => .fail
        | c :: d2 =>
            if c = ':' then
              if k = key then .found d2
              else .next (skipComma (skipValue d2))
            else .fail

theorem findKeyStep_next_length {key d d4 : List Char}
    (h : findKeyStep key d = .next d4) : d4.length < d.length := by
  unfold findKeyStep at h
  split at h
  · exact absurd h (by simp)
  · split at h
    · exact absurd h (by simp)
    · split at h
      · exact absurd h (by simp)
      · rename_i k d1 hps
        split at h
        · exact absurd h (by simp)
        · rename_i c d2 hc
          split at h
          · split at h
            · exact absurd h (by simp)
            · have h1 := parseString_length hps
              have h2 := skipWs_length_le d1
              have h3 := skipValue_length_le d2
              have h4 := skipComma_length_le (skipValue d2)
              have h5 := skipWs_length_le d
              rw [hc] at h2
              simp only [StepRes.next.injEq] at h
              subst h
              simp only [List.length_cons] at h2
              omega
          · exact absurd h (by simp)

/-- The key-scanning loop of find_key, iterating findKeyStep.  The fuel
    only serves as a structural termination measure: each continuing
    iteration consumes at least three bytes of the cursor, so any fuel
    above the cursor length is never exhausted (findKeyLoopF_fuel below),
    and findKeyLoop supplies length + 1. -/
def findKeyLoopF (key : List Char) : Nat → List Char → Option (List Char)
  | 0, _ => none
  | fuel + 1, d =>
      match findKeyStep key d with
      | .found d2 => some d2
      | .fail => none
      | .next d4 => findKeyLoopF key fuel d4

theorem findKeyLoopF_fuel (key : List Char) :
    ∀ (fuel fuel' : Nat) (d : List Char), d.length < fuel → d.length < fuel' →
      findKeyLoopF key fuel d = findKeyLoopF key fuel' d
  | 0, _, _, h, _ => by omega
  | _ + 1, 0, _, _, h' => by omega
  | fuel + 1, fuel' + 1, d, h, h' => by
      unfold findKeyLoopF
      cases hstep : findKeyStep key d with
      | found d2 => rfl
      | fail => rfl
      | next d4 =>
          have hlt := findKeyStep_next_length hstep
          exact findKeyLoopF_fuel key fuel fuel' d4 (by omega) (by omega)

/-- The key-scanning loop of find_key: iterate findKeyStep until it stops. -/
def findKeyLoop (key : List Char) (d : List Char) : Option (List Char) :=
  findKeyLoopF key (d.length + 1) d

theorem findKeyLoop_found {key d d2 : List Char}
    (h : findKeyStep key d = .found d2) : findKeyLoop key d = some d2 := by
  unfold findKeyLoop findKeyLoopF
  rw [h]

theorem findKeyLoop_fail {key d : List Char}
    (h : findKeyStep key d = .fail) : findKeyLoop key d = none := by
  unfold findKeyLoop findKeyLoopF
  rw [h]

theorem findKeyLoop_next {key d d4 : List Char}
    (h : findKeyStep key d = .next d4) : findKeyLoop key d = findKeyLoop key d4 := by
  unfold findKeyLoop
  conv_lhs => rw [findKeyLoopF]
  rw [h]
  exact findKeyLoopF_fuel key d.length (d4.length + 1) d4
    (findKeyStep_next_length h) (by omega)

/-- find_key(key): rewind to the start of the line, expect an opening
    brace after optional whitespace, then scan. -/
def findKey (d key : List Char) : Option (List Char) :=
  match skipWs d with
  | [] => none
  | c :: r => if c = '{' then findKeyLoop key r else none

/-- The find_key / parse_string composition process_command uses for every
    string-valued field. -/
def readStringKey (line key : List Char) (maxLen : Nat) : Option (List Char) :=
  (findKey line key).bind fun r => (parseString r maxLen).map Prod.fst

/-- The find_key / parse_int composition process_command uses for every
    integer-valued field: none when the key is missing, otherwise the
    parse_int result (-1 for an unparseable value). -/
def readIntKey (line key : List Char) : Option Int :=
  (findKey line key).map fun r => (parseInt r).1

/-! ### process_command (tcp_server.c)

    The dispatcher decodes one request line and either runs the matching
    test_* handler directly or sends an error response.  Responses are
    modelled structurally (send_ok_response, send_error_response, the
    get_state response with a text field, and the screenshot header). -/

inductive Resp
  | ok (cmd : List Char)
  | okText (cmd text : List Char)
  | shotHdr (w h len : Nat)
  | err (cmd e : List Char)
deriving DecidableEq, Repr

/-- The combined check C writes as
    find_key(...) != 0 or (v = parse_int(...)) < 0
    for each coordinate or key-code field: none when the key is missing or
    its value parses negative (including the parse-failure value -1). -/
def readNonneg (line key : List Char) : Option Int :=
  match readIntKey line key with
  | none => none
  | some v => if v < 0 then none else some v

/-- The ms-field pattern of the longpress and wait branches: a default,
    overridden by a parsed positive value when the key is present. -/
def readMsOr (line : List Char) (dflt : Int) : Int :=
  match readIntKey line ("ms".data) with
  | none => dflt
  | some v => if v ≤ 0 then dflt else v

def processCommand (env : Env) (ext : ExtEnv) (line : List Char) :
    Resp × List Eff :=
  match readStringKey line ("cmd".data) 32 with
  | none => (.err ("unknown".data) ("invalid_json".data), [])
  | some cmd =>
      if cmd = ("click".data) then
        match readStringKey line ("id".data) 64 with
        | none => (.err cmd ("missing_id".data), [])
        | some id =>
            let r := testClick env id
            if r.1 = TEST_OK then (.ok cmd, r.2)
            else (.err cmd ("widget_not_found".data), r.2)
      else if cmd = ("longpress".data) then
        match readStringKey line ("id".data) 64 with
        | none => (.err cmd ("missing_id".data), [])
        | some id =>
            let r := testLongpress env id (readMsOr line 1000).toNat
            if r.1 = TEST_OK then (.ok cmd, r.2)
            else (.err cmd ("widget_not_found".data), r.2)
      else if cmd = ("swipe".data) then
        match readNonneg line ("x1".data), readNonneg line ("y1".data),
              readNonneg line ("x2".data), readNonneg line ("y2".data) with
        | some x1, some y1, some x2, some y2 =>
            let r := testSwipe x1 y1 x2 y2
            if r.1 = TEST_OK then (.ok cmd, r.2)
            else (.err cmd ("swipe_failed".data), r.2)
        | _, _, _, _ => (.err cmd ("invalid_coordinates".data), [])
      else if cmd = ("key".data) then
        match readNonneg line ("code".data) with
        | none => (.err cmd ("invalid_key_code".data), [])
        | some code =>
            let r := testKeyEvent code
            if r.1 = TEST_OK then (.ok cmd, r.2)
            else (.err cmd ("key_event_failed".data), r.2)
      else if cmd = ("get_state".data) then
        match readStringKey line ("id".data) 64 with
        | none => (.err cmd ("missing_id".data), [])
        | some id =>
            let r := testGetText env id
            match r.1 with
            | some text => (.okText cmd text, r.2)
            | none => (.err cmd ("widget_not_found".data), r.2)
      else if cmd = ("set_text".data) then
        match readStringKey line ("id".data) 64,
              readStringKey line ("text".data) 256 with
        | some id, some text =>
            let r := testSetText env id text
            if r.1 = TEST_OK then (.ok cmd, r.2)
            else (.err cmd ("widget_not_found".data), r.2)
        | _, _ => (.err cmd ("missing_parameters".data), [])
      else if cmd = ("screenshot".data) then
        let r := testScreenshot ext
        if r.1 = TEST_OK ∧ r.2.1 = true ∧ r.2.2.1 > 0 then
          (.shotHdr 480 480 r.2.2.1, r.2.2.2)
        else (.err cmd ("screenshot_failed".data), r.2.2.2)
      else if cmd = ("wait".data) then
        (.ok cmd, testWait (readMsOr line 100).toNat)
      else if cmd = ("click_at".data) then
        match readNonneg line ("x".data), readNonneg line ("y".data) with
        | some x, some y =>
            if ext.clickAtRes x y = TEST_OK then (.ok cmd, [.clickAt x y])
            else (.err cmd ("click_failed".data), [.clickAt x y])
        | _, _ => (.err cmd ("invalid_coordinates".data), [])
      else if cmd = ("mouse_move".data) then
        match readNonneg line ("x".data), readNonneg line ("y".data) with
        | some x, some y =>
            if ext.mouseMoveRes x y = TEST_OK then (.ok cmd, [.mouseMove x y])
            else (.err cmd ("mouse_move_failed".data), [.mouseMove x y])
        | _, _ => (.err cmd ("invalid_coordinates".data), [])
      else if cmd = ("drag".data) then
        match readNonneg line ("x1".data), readNonneg line ("y1".data),
              readNonneg line ("x2".data), readNonneg line ("y2".data) with
        | some x1, some y1, some x2, some y2 =>
            if ext.dragRes x1 y1 x2 y2 = TEST_OK then
              (.ok cmd, [.drag x1 y1 x2 y2])
            else (.err cmd ("drag_failed".data), [.drag x1 y1 x2 y2])
        | _, _, _, _ => (.err cmd ("invalid_coordinates".data), [])
      else (.err cmd ("unknown_command".data), [])

/-! ### Rendering flat request objects

    The wire format the codec supports is a flat top-level object whose
    values are double-quoted strings or decimal integers (tcp_server.c
    also skips, and parse_int rejects, integers with a leading minus
    sign).  Requests are built from key/value lists and rendered to the
    canonical wire text; the decode claims quantify over these. -/

inductive JVal
  | jstr (s : List Char)
  | jnum (n : Nat)
  | jneg (n : Nat)
deriving DecidableEq, Repr

/-- A decimal digit as a character. -/
def digitChar (k : Nat) : Char :=
  match k with
  | 0 => '0' | 1 => '1' | 2 => '2' | 3 => '3' | 4 => '4'
  | 5 => '5' | 6 => '6' | 7 => '7' | 8 => '8' | _ => '9'

/-- The usual decimal rendering of a natural number. -/
def digitsOf (n : Nat) : List Char :=
  if n < 10 then [digitChar n]
  else digitsOf (n / 10) ++ [digitChar (n % 10)]
termination_by n
decreasing_by omega

def renderVal : JVal → List Char
  | .jstr s => '"' :: s ++ ['"']
  | .jnum n => digitsOf n
  | .jneg n => '-' :: digitsOf n

/-- The members of the object, each as key, colon, value, with commas in
    between and the closing brace at the end. -/
def renderPairs : List (List Char × JVal) → List Char
  | [] => ['}']
  | (k, v) :: rest =>
      '"' :: k ++ '"' :: ':' :: renderVal v ++
        (if rest.isEmpty then ['}'] else ',' :: renderPairs rest)

/-- One whole request line. -/
def render (l : List (List Char × JVal)) : List Char := '{' :: renderPairs l

/-- What follows the value of a member: the closing brace for the last
    member, else a comma and the remaining members. -/
def pairsTail (rest : List (List Char × JVal)) : List Char :=
  if rest.isEmpty then ['}'] else ',' :: renderPairs rest

theorem renderPairs_cons (k : List Char) (v : JVal)
    (rest : List (List Char × JVal)) :
    renderPairs ((k, v) :: rest) =
      '"' :: (k ++ '"' :: ':' :: (renderVal v ++ pairsTail rest)) := by
  simp [renderPairs, pairsTail, List.append_assoc]

/-- No double quote among the characters: such a string or key is copied
    through the codec verbatim. -/
def goodStr (s : List Char) : Prop := ∀ c ∈ s, c ≠ '"'

instance (s : List Char) : Decidable (goodStr s) := by
  unfold goodStr; infer_instance

def goodVal : JVal → Prop
  | .jstr s => goodStr s
  | .jnum _ => True
  | .jneg _ => True

instance (v : JVal) : Decidable (goodVal v) := by
  cases v <;> simp only [goodVal] <;> infer_instance

/-- A key fits the 64-byte current_key buffer of find_key untruncated and
    holds no double quote. -/
def goodKey (k : List Char) : Prop := goodStr k ∧ k.length ≤ 63

instance (k : List Char) : Decidable (goodKey k) := by
  unfold goodKey; infer_instance

/-- A renderable request object: every member has a good key and value. -/
def wfObj (l : List (List Char × JVal)) : Prop :=
  ∀ p ∈ l, goodKey p.1 ∧ goodVal p.2

instance (l : List (List Char × JVal)) : Decidable (wfObj l) := by
  unfold wfObj; infer_instance

/-! ### Facts about digits and character classes -/

theorem digitChar_digit {k : Nat} (h : k < 10) : cIsDigit (digitChar k) = true := by
  interval_cases k <;> decide

theorem digitChar_toNat {k : Nat} (h : k < 10) : (digitChar k).toNat = 48 + k := by
  interval_cases k <;> decide

theorem digitsOf_digits (n : Nat) : ∀ c ∈ digitsOf n, cIsDigit c = true := by
  induction n using Nat.strong_induction_on with
  | _ n ih =>
      rw [digitsOf]
      split
      · rename_i h
        intro c hc
        simp only [List.mem_singleton] at hc
        subst hc
        exact digitChar_digit h
      · intro c hc
        rw [List.mem_append] at hc
        rcases hc with hc | hc
        · exact ih (n / 10) (by omega) c hc
        · simp only [List.mem_singleton] at hc
          subst hc
          exact digitChar_digit (by omega)

theorem digitsOf_ne_nil (n : Nat) : digitsOf n ≠ [] := by
  rw [digitsOf]; split <;> simp

theorem natOfDigits_append (a : List Char) (c : Char) :
    natOfDigits (a ++ [c]) = natOfDigits a * 10 + (c.toNat - 48) := by
  unfold natOfDigits
  rw [List.foldl_append]
  rfl

theorem natOfDigits_digitsOf (n : Nat) : natOfDigits (digitsOf n) = n := by
  induction n using Nat.strong_induction_on with
  | _ n ih =>
      rw [digitsOf]
      split
      · rename_i h
        show natOfDigits [digitChar n] = n
        unfold natOfDigits
        simp only [List.foldl_cons, List.foldl_nil, Nat.zero_mul, Nat.zero_add]
        rw [digitChar_toNat h]
        omega
      · rename_i h
        rw [natOfDigits_append, ih (n / 10) (by omega),
            digitChar_toNat (by omega : n % 10 < 10)]
        omega

theorem cIsDigit_ne_quote {c : Char} (h : cIsDigit c = true) : c ≠ '"' := by
  intro hc; subst hc; exact absurd h (by decide)

theorem cIsDigit_ne_minus {c : Char} (h : cIsDigit c = true) : (c == '-') = false := by
  simp only [beq_eq_false_iff_ne, ne_eq]
  intro hc; subst hc; exact absurd h (by decide)

theorem cIsDigit_not_space {c : Char} (h : cIsDigit c = true) :
    cIsSpace c = false := by
  simp only [cIsDigit, Bool.and_eq_true, decide_eq_true_eq] at h
  simp only [cIsSpace, Bool.or_eq_false_iff, Bool.and_eq_false_iff,
    decide_eq_false_iff_not]
  omega

theorem cIsDigit_not_dot {c : Char} (h : cIsDigit c = true) : (c == '.') = false := by
  simp only [beq_eq_false_iff_ne, ne_eq]
  intro hc; subst hc; exact absurd h (by decide)

/-! ### takeWhile and dropWhile over concatenations -/

theorem takeWhile_app_all {p : Char → Bool} {s : List Char} (t : List Char)
    (hs : ∀ c ∈ s, p c = true) : (s ++ t).takeWhile p = s ++ t.takeWhile p := by
  induction s with
  | nil => simp
  | cons c cs ih =>
      simp only [List.cons_append, List.takeWhile_cons, hs c (by simp), if_true]
      rw [ih (fun c hc => hs c (by simp [hc]))]

theorem dropWhile_app_all {p : Char → Bool} {s : List Char} (t : List Char)
    (hs : ∀ c ∈ s, p c = true) : (s ++ t).dropWhile p = t.dropWhile p := by
  induction s with
  | nil => simp
  | cons c cs ih =>
      simp only [List.cons_append, List.dropWhile_cons, hs c (by simp), if_true]
      exact ih (fun c hc => hs c (by simp [hc]))

/-! ### Decoding rendered objects -/

theorem skipWs_cons {c : Char} {cs : List Char} (h : cIsSpace c = false) :
    skipWs (c :: cs) = c :: cs := by
  simp [skipWs, h]

/-- The truncation parse_string applies when the value is at least max_len
    bytes long: only the first max_len - 1 bytes are copied. -/
def truncTo (s : List Char) (m : Nat) : List Char :=
  s.take (if s.length ≥ m then m - 1 else s.length)

theorem truncTo_of_lt {s : List Char} {m : Nat} (h : s.length < m) :
    truncTo s m = s := by
  unfold truncTo
  rw [if_neg (by omega)]
  exact List.take_length s

theorem goodStr_bne {s : List Char} (hs : goodStr s) :
    ∀ c ∈ s, (c != '"') = true := by
  intro c hc
  simpa using hs c hc

theorem parseString_lit {s : List Char} (t : List Char) (m : Nat)
    (hs : goodStr s) :
    parseString ('"' :: (s ++ '"' :: t)) m = some (truncTo s m, t) := by
  unfold parseString
  rw [skipWs_cons (by decide)]
  simp only [if_pos rfl]
  rw [dropWhile_app_all ('"' :: t) (goodStr_bne hs),
      takeWhile_app_all ('"' :: t) (goodStr_bne hs)]
  simp only [List.dropWhile_cons, List.takeWhile_cons]
  norm_num [truncTo]

theorem parseString_nonquote {c : Char} {r : List Char} (m : Nat)
    (hsp : cIsSpace c = false) (hq : c ≠ '"') :
    parseString (c :: r) m = none := by
  unfold parseString
  rw [skipWs_cons hsp]
  simp [hq]

theorem digitsOf_head (n : Nat) :
    ∃ c ds, digitsOf n = c :: ds ∧ cIsDigit c = true := by
  cases h : digitsOf n with
  | nil => exact absurd h (digitsOf_ne_nil n)
  | cons c ds =>
      refine ⟨c, ds, rfl, ?_⟩
      exact digitsOf_digits n c (h ▸ List.mem_cons_self c ds)

theorem pairsTail_cases (rest : List (List Char × JVal)) :
    pairsTail rest = ['}'] ∨ ∃ t0, pairsTail rest = ',' :: t0 := by
  cases rest
  · left; rfl
  · right; exact ⟨_, rfl⟩

theorem parseInt_digits {n : Nat} {c0 : Char} {t0 : List Char}
    (h0 : cIsDigit c0 = false) :
    parseInt (digitsOf n ++ c0 :: t0) = (wrap32 n, c0 :: t0) := by
  obtain ⟨c, ds, hds, hcd⟩ := digitsOf_head n
  rw [hds]
  unfold parseInt
  rw [List.cons_append, skipWs_cons (cIsDigit_not_space hcd)]
  dsimp only
  rw [if_pos hcd, ← List.cons_append, ← hds]
  rw [takeWhile_app_all (c0 :: t0) (digitsOf_digits n),
      dropWhile_app_all (c0 :: t0) (digitsOf_digits n)]
  simp [List.takeWhile_cons, List.dropWhile_cons, h0, natOfDigits_digitsOf]

theorem parseInt_nondigit {c : Char} {r : List Char}
    (hsp : cIsSpace c = false) (hd : cIsDigit c = false) :
    parseInt (c :: r) = (-1, c :: r) := by
  unfold parseInt
  rw [skipWs_cons hsp]
  simp [hd]

theorem skipValue_render {v : JVal} (rest : List (List Char × JVal))
    (hv : goodVal v) :
    skipValue (renderVal v ++ pairsTail rest) = pairsTail rest := by
  cases v with
  | jstr s =>
      simp only [renderVal, List.cons_append, List.append_assoc,
        List.singleton_append, List.nil_append]
      unfold skipValue
      rw [skipWs_cons (by decide)]
      dsimp only
      rw [if_pos rfl]
      rw [dropWhile_app_all ('"' :: pairsTail rest) (goodStr_bne hv)]
      simp [List.dropWhile_cons]
  | jnum n =>
      obtain ⟨c, ds, hds, hcd⟩ := digitsOf_head n
      simp only [renderVal]
      rw [hds]
      unfold skipValue
      rw [List.cons_append, skipWs_cons (cIsDigit_not_space hcd)]
      dsimp only
      rw [if_neg (cIsDigit_ne_quote hcd)]
      rw [if_pos (by rw [hcd]; rfl)]
      rw [if_neg (by rw [cIsDigit_ne_minus hcd]; exact Bool.false_ne_true)]
      rw [← List.cons_append, ← hds]
      rw [dropWhile_app_all (pairsTail rest)
        (fun x hx => by rw [digitsOf_digits n x hx]; rfl)]
      rcases pairsTail_cases rest with h | ⟨t0, h⟩ <;>
        rw [h, List.dropWhile_cons, if_neg (by decide)]
  | jneg n =>
      simp only [renderVal]
      unfold skipValue
      rw [List.cons_append, skipWs_cons (by decide)]
      dsimp only
      rw [if_neg (by decide)]
      rw [if_pos (by decide)]
      rw [if_pos (by decide)]
      rw [dropWhile_app_all (pairsTail rest)
        (fun x hx => by rw [digitsOf_digits n x hx]; rfl)]
      rcases pairsTail_cases rest with h | ⟨t0, h⟩ <;>
        rw [h, List.dropWhile_cons, if_neg (by decide)]

theorem skipComma_pairsTail (rest : List (List Char × JVal)) :
    skipComma (pairsTail rest) = renderPairs rest := by
  cases rest with
  | nil =>
      unfold pairsTail skipComma
      dsimp only [List.isEmpty_nil]
      rw [if_pos rfl, skipWs_cons (by decide)]
      dsimp only
      rw [if_neg (by decide)]
      rfl
  | cons p ps =>
      unfold pairsTail skipComma
      dsimp only [List.isEmpty_cons]
      rw [if_neg (by simp), skipWs_cons (by decide)]
      dsimp only
      rw [if_pos rfl]

/-- First-match lookup in a key/value list, together with the members that
    follow the match (the part of the object text rendered after the
    value). -/
def jlookupTail (key : List Char) :
    List (List Char × JVal) → Option (JVal × List (List Char × JVal))
  | [] => none
  | (k, v) :: rest => if k = key then some (v, rest) else jlookupTail key rest

/-- First-match lookup in a key/value list. -/
def jlookup (key : List Char) (l : List (List Char × JVal)) : Option JVal :=
  (jlookupTail key l).map Prod.fst

theorem jlookupTail_mem {key : List Char} {l : List (List Char × JVal)}
    {v : JVal} {rest : List (List Char × JVal)}
    (h : jlookupTail key l = some (v, rest)) : (key, v) ∈ l := by
  induction l with
  | nil => simp [jlookupTail] at h
  | cons p ps ih =>
      obtain ⟨k, w⟩ := p
      unfold jlookupTail at h
      split at h
      · rename_i hk
        simp only [Option.some.injEq, Prod.mk.injEq] at h
        obtain ⟨h1, -⟩ := h
        subst hk h1
        exact List.mem_cons_self _ _
      · exact List.mem_cons_of_mem _ (ih h)

theorem findKeyStep_render_nil (key : List Char) :
    findKeyStep key (renderPairs []) = .fail := by
  rfl

theorem findKeyStep_render_cons {key k : List Char} {v : JVal}
    {rest : List (List Char × JVal)} (hk : goodKey k) (hv : goodVal v) :
    findKeyStep key (renderPairs ((k, v) :: rest)) =
      if k = key then .found (renderVal v ++ pairsTail rest)
      else .next (renderPairs rest) := by
  obtain ⟨hks, hkl⟩ := hk
  rw [renderPairs_cons]
  unfold findKeyStep
  rw [if_neg (by simp)]
  rw [skipWs_cons (by decide)]
  rw [List.head?_cons, if_neg (by decide)]
  rw [parseString_lit _ 64 hks]
  dsimp only
  rw [truncTo_of_lt (by omega)]
  rw [skipWs_cons (by decide)]
  dsimp only
  rw [if_pos rfl]
  rw [skipValue_render rest hv, skipComma_pairsTail]

theorem findKeyLoop_render (key : List Char) :
    ∀ l : List (List Char × JVal), wfObj l →
      findKeyLoop key (renderPairs l) =
        (jlookupTail key l).map (fun p => renderVal p.1 ++ pairsTail p.2)
  | [], _ => by
      rw [findKeyLoop_fail (findKeyStep_render_nil key)]; rfl
  | (k, v) :: rest, hwf => by
      have hk : goodKey k := (hwf (k, v) (by simp)).1
      have hv : goodVal v := (hwf (k, v) (by simp)).2
      have hstep := @findKeyStep_render_cons key k v rest hk hv
      by_cases hkey : k = key
      · rw [if_pos hkey] at hstep
        rw [findKeyLoop_found hstep]
        rw [show jlookupTail key ((k, v) :: rest) =
          if k = key then some (v, rest) else jlookupTail key rest from rfl]
        rw [if_pos hkey]
        rfl
      · rw [if_neg hkey] at hstep
        rw [findKeyLoop_next hstep]
        rw [findKeyLoop_render key rest (fun p hp => hwf p (by simp [hp]))]
        rw [show jlookupTail key ((k, v) :: rest) =
          if k = key then some (v, rest) else jlookupTail key rest from rfl]
        rw [if_neg hkey]

theorem findKey_render {key : List Char} {l : List (List Char × JVal)}
    (hwf : wfObj l) :
    findKey (render l) key =
      (jlookupTail key l).map (fun p => renderVal p.1 ++ pairsTail p.2) := by
  unfold findKey render
  rw [skipWs_cons (by decide)]
  dsimp only
  rw [if_pos rfl]
  exact findKeyLoop_render key l hwf

theorem readStringKey_render {l : List (List Char × JVal)} {key : List Char}
    (m : Nat) (hwf : wfObj l) :
    readStringKey (render l) key m =
      match jlookup key l with
      | some (.jstr s) => some (truncTo s m)
      | _ => none := by
  unfold readStringKey jlookup
  rw [findKey_render hwf]
  cases hjt : jlookupTail key l with
  | none => rfl
  | some p =>
      obtain ⟨v, rest⟩ := p
      rw [Option.map_some', Option.some_bind]
      cases v with
      | jstr s =>
          have hv : goodStr s := (hwf _ (jlookupTail_mem hjt)).2
          rw [show renderVal (.jstr s) ++ pairsTail rest =
            '"' :: (s ++ '"' :: pairsTail rest) from by simp [renderVal]]
          rw [parseString_lit _ m hv]
          rfl
      | jnum n =>
          obtain ⟨c, ds, hds, hcd⟩ := digitsOf_head n
          rw [show renderVal (.jnum n) ++ pairsTail rest =
            c :: (ds ++ pairsTail rest) from by simp [renderVal, hds]]
          rw [parseString_nonquote m (cIsDigit_not_space hcd)
            (cIsDigit_ne_quote hcd)]
          rfl
      | jneg n =>
          rw [show renderVal (.jneg n) ++ pairsTail rest =
            '-' :: (digitsOf n ++ pairsTail rest) from by simp [renderVal]]
          rw [parseString_nonquote m (by decide) (by decide)]
          rfl

theorem readIntKey_render {l : List (List Char × JVal)} {key : List Char}
    (hwf : wfObj l) :
    readIntKey (render l) key =
      match jlookup key l with
      | none => none
      | some (.jnum n) => some (wrap32 n)
      | some _ => some (-1) := by
  unfold readIntKey jlookup
  rw [findKey_render hwf]
  cases hjt : jlookupTail key l with
  | none => rfl
  | some p =>
      obtain ⟨v, rest⟩ := p
      rw [Option.map_some', Option.map_some']
      cases v with
      | jstr s =>
          rw [show renderVal (.jstr s) ++ pairsTail rest =
            '"' :: (s ++ '"' :: pairsTail rest) from by simp [renderVal]]
          rw [parseInt_nondigit (by decide) (by decide)]
          rfl
      | jnum n =>
          rw [show renderVal (.jnum n) ++ pairsTail rest =
            digitsOf n ++ pairsTail rest from rfl]
          rcases pairsTail_cases rest with h | ⟨t0, h⟩ <;> rw [h] <;>
            rw [parseInt_digits (by decide)] <;> rfl
      | jneg n =>
          rw [show renderVal (.jneg n) ++ pairsTail rest =
            '-' :: (digitsOf n ++ pairsTail rest) from by simp [renderVal]]
          rw [parseInt_nondigit (by decide) (by decide)]
          rfl

/-! ### The abstract registry map

    Specification-side model of the registry (section 4.1 and section 8 of
    the spec): a last-writer-wins association map of capacity 64.  A
    register succeeds exactly when the registry is not full; a successful
    register of an existing id updates it in place, a successful register
    of a new id appends it. -/

def valOf : Option Nat → Nat
  | none => 0
  | some o => o

def specLookup (id : List Char) : List (List Char × Nat) → Option Nat
  | [] => none
  | (k, o) :: rest => if k = id then some o else specLookup id rest

def specUpdate (m : List (List Char × Nat)) (id : List Char) (obj : Nat) :
    List (List Char × Nat) :=
  m.map (fun p => if p.1 = id then (p.1, obj) else p)

def specInsert (m : List (List Char × Nat)) (id : List Char) (obj : Nat) :
    List (List Char × Nat) :=
  if 64 ≤ m.length then m
  else
    match specLookup id m with
    | some _ => specUpdate m id obj
    | none => m ++ [(id, obj)]

def specRun (regs : List (List Char × Nat)) : List (List Char × Nat) :=
  regs.foldl (fun m p => specInsert m p.1 p.2) []

/-- The concrete registry state a spec-side map denotes. -/
def asEntries (m : List (List Char × Nat)) : List WEntry :=
  m.map (fun p => ⟨p.1, p.2, true⟩)

/-- A register sequence within the modelled wire limits: ids short enough
    to avoid strncpy truncation, handles non-NULL. -/
def wfRegs (regs : List (List Char × Nat)) : Prop :=
  ∀ p ∈ regs, p.1.length ≤ 31 ∧ p.2 ≠ 0

instance (regs : List (List Char × Nat)) : Decidable (wfRegs regs) := by
  unfold wfRegs; infer_instance

theorem findWidget_asEntries (m : List (List Char × Nat)) (id : List Char) :
    findWidget (asEntries m) id = valOf (specLookup id m) := by
  induction m with
  | nil => rfl
  | cons p ps ih =>
      obtain ⟨k, o⟩ := p
      unfold asEntries at ih ⊢
      simp only [List.map_cons]
      unfold findWidget specLookup
      by_cases hk : k = id
      · rw [if_pos (by simp [hk]), if_pos hk]; rfl
      · rw [if_neg (by simp [hk]), if_neg hk]; exact ih

theorem updDup_asEntries_none {m : List (List Char × Nat)} {id : List Char}
    (obj : Nat) (h : specLookup id m = none) :
    updDup id obj (asEntries m) = none := by
  induction m with
  | nil => rfl
  | cons p ps ih =>
      obtain ⟨k, o⟩ := p
      unfold specLookup at h
      split at h
      · exact absurd h (by simp)
      · rename_i hk
        unfold asEntries at ih ⊢
        simp only [List.map_cons]
        unfold updDup
        rw [if_neg (by simp [hk])]
        rw [ih h]
        rfl

theorem specUpdate_cons (p : List Char × Nat) (ps : List (List Char × Nat))
    (id : List Char) (obj : Nat) :
    specUpdate (p :: ps) id obj =
      (if p.1 = id then (p.1, obj) else p) :: specUpdate ps id obj := rfl

theorem specUpdate_not_mem {m : List (List Char × Nat)} {id : List Char}
    (obj : Nat) (h : id ∉ m.map Prod.fst) : specUpdate m id obj = m := by
  induction m with
  | nil => rfl
  | cons p ps ih =>
      simp only [List.map_cons, List.mem_cons, not_or] at h
      rw [specUpdate_cons, if_neg (fun hh => h.1 hh.symm), ih h.2]

theorem updDup_asEntries_some {m : List (List Char × Nat)} {id : List Char}
    {o0 : Nat} (obj : Nat) (hnd : (m.map Prod.fst).Nodup)
    (h : specLookup id m = some o0) :
    updDup id obj (asEntries m) = some (asEntries (specUpdate m id obj)) := by
  induction m with
  | nil => simp [specLookup] at h
  | cons p ps ih =>
      obtain ⟨k, o⟩ := p
      simp only [List.map_cons, List.nodup_cons] at hnd
      unfold specLookup at h
      split at h
      · rename_i hk
        subst hk
        rw [specUpdate_cons, if_pos rfl]
        rw [specUpdate_not_mem obj hnd.1]
        unfold asEntries
        simp only [List.map_cons]
        unfold updDup
        rw [if_pos (by simp)]
      · rename_i hk
        rw [specUpdate_cons, if_neg hk]
        unfold asEntries
        simp only [List.map_cons]
        unfold updDup
        rw [if_neg (by simp [hk])]
        unfold asEntries at ih
        rw [ih hnd.2 h]
        rfl

theorem specLookup_none_iff {m : List (List Char × Nat)} {id : List Char} :
    specLookup id m = none ↔ id ∉ m.map Prod.fst := by
  induction m with
  | nil => simp [specLookup]
  | cons p ps ih =>
      obtain ⟨k, o⟩ := p
      unfold specLookup
      by_cases hk : k = id
      · subst hk
        simp
      · rw [if_neg hk]
        simp only [List.map_cons, List.mem_cons, not_or]
        rw [ih]
        constructor
        · exact fun h => ⟨fun hh => hk hh.symm, h⟩
        · exact fun h => h.2

theorem specUpdate_keys (m : List (List Char × Nat)) (id : List Char)
    (obj : Nat) : (specUpdate m id obj).map Prod.fst = m.map Prod.fst := by
  induction m with
  | nil => rfl
  | cons p ps ih =>
      rw [specUpdate_cons]
      simp only [List.map_cons, ih]
      split <;> rfl

theorem specLookup_update_self {m : List (List Char × Nat)} {id : List Char}
    {o0 : Nat} (obj : Nat) (h : specLookup id m = some o0) :
    specLookup id (specUpdate m id obj) = some obj := by
  induction m with
  | nil => simp [specLookup] at h
  | cons p ps ih =>
      unfold specLookup at h
      rw [specUpdate_cons]
      split at h
      · rename_i hk
        rw [if_pos hk]
        unfold specLookup
        rw [if_pos hk]
      · rename_i hk
        rw [if_neg hk]
        unfold specLookup
        rw [if_neg hk]
        exact ih h

theorem specLookup_update_ne {m : List (List Char × Nat)} {id k : List Char}
    (obj : Nat) (h : k ≠ id) :
    specLookup id (specUpdate m k obj) = specLookup id m := by
  induction m with
  | nil => rfl
  | cons p ps ih =>
      rw [specUpdate_cons]
      by_cases hp : p.1 = k
      · rw [if_pos hp]
        unfold specLookup
        rw [if_neg (by rw [hp]; exact h), if_neg (by rw [hp]; exact h)]
        exact ih
      · rw [if_neg hp]
        unfold specLookup
        split
        · rfl
        · exact ih

theorem specLookup_append_none {m : List (List Char × Nat)} {id k : List Char}
    (o : Nat) (hm : specLookup id m = none) (hk : k ≠ id) :
    specLookup id (m ++ [(k, o)]) = none := by
  induction m with
  | nil => simp [specLookup, hk]
  | cons p ps ih =>
      unfold specLookup at hm ⊢
      split at hm
      · exact absurd hm (by simp)
      · rename_i hp
        rw [List.cons_append]
        simp only [specLookup]
        rw [if_neg hp]
        exact ih hm

theorem specLookup_append_self {m : List (List Char × Nat)} {id : List Char}
    (o : Nat) (hm : specLookup id m = none) :
    specLookup id (m ++ [(id, o)]) = some o := by
  induction m with
  | nil => simp [specLookup]
  | cons p ps ih =>
      unfold specLookup at hm ⊢
      split at hm
      · exact absurd hm (by simp)
      · rename_i hp
        rw [List.cons_append]
        simp only [specLookup]
        rw [if_neg hp]
        exact ih hm

/-- The invariant the spec-side map maintains: distinct ids, ids short
    enough for strncpy, handles non-NULL. -/
def wfMap (m : List (List Char × Nat)) : Prop :=
  (m.map Prod.fst).Nodup ∧ ∀ p ∈ m, p.1.length ≤ 31 ∧ p.2 ≠ 0

theorem specInsert_wf {m : List (List Char × Nat)} {id : List Char}
    {obj : Nat} (hm : wfMap m) (hlen : id.length ≤ 31) (hobj : obj ≠ 0) :
    wfMap (specInsert m id obj) := by
  unfold specInsert
  split
  · exact hm
  · split
    · constructor
      · rw [specUpdate_keys]; exact hm.1
      · intro p hp
        unfold specUpdate at hp
        simp only [List.mem_map] at hp
        obtain ⟨q, hq, hqe⟩ := hp
        subst hqe
        split
        · exact ⟨(hm.2 q hq).1, hobj⟩
        · exact hm.2 q hq
    · rename_i hsl
      constructor
      · simp only [List.map_append, List.map_cons, List.map_nil]
        rw [List.nodup_append]
        refine ⟨hm.1, List.nodup_singleton id, ?_⟩
        intro a ha hb
        simp only [List.mem_singleton] at hb
        subst hb
        exact (specLookup_none_iff.mp hsl) ha
      · intro p hp
        rw [List.mem_append] at hp
        rcases hp with hp | hp
        · exact hm.2 p hp
        · simp only [List.mem_singleton] at hp
          subst hp
          exact ⟨hlen, hobj⟩

theorem regWidget_asEntries {m : List (List Char × Nat)} {id : List Char}
    {obj : Nat} (hnd : (m.map Prod.fst).Nodup) (hlen : id.length ≤ 31)
    (hobj : obj ≠ 0) :
    regWidget (asEntries m) (some id) obj =
      ((if 64 ≤ m.length then TEST_ERROR_INVALID_PARAM else TEST_OK),
        asEntries (specInsert m id obj)) := by
  unfold regWidget
  dsimp only
  have hlm : (asEntries m).length = m.length := by simp [asEntries]
  have hcond : ((decide (obj = 0) || decide ((asEntries m).length ≥ MAX_WIDGETS))
      = true) ↔ 64 ≤ m.length := by
    simp [hobj, hlm, MAX_WIDGETS, ge_iff_le]
  by_cases hfull : 64 ≤ m.length
  · rw [if_pos (hcond.mpr hfull)]
    rw [specInsert, if_pos hfull, if_pos hfull]
  · rw [if_neg (fun hc => hfull (hcond.mp hc))]
    rw [specInsert, if_neg hfull, if_neg hfull]
    cases hsl : specLookup id m with
    | some o0 =>
        rw [updDup_asEntries_some obj hnd hsl]
    | none =>
        rw [updDup_asEntries_none obj hsl]
        have htake : id.take (MAX_ID_LEN - 1) = id := by
          apply List.take_of_length_le
          simp only [MAX_ID_LEN]
          omega
        dsimp only
        rw [htake]
        unfold asEntries
        simp

theorem runRegs_asEntries :
    ∀ (regs : List (List Char × Nat)) (m : List (List Char × Nat)),
      wfRegs regs → wfMap m →
      runRegs (asEntries m) regs =
        asEntries (regs.foldl (fun m p => specInsert m p.1 p.2) m)
  | [], m, _, _ => rfl
  | (id, obj) :: rest, m, hwf, hm => by
      have hid : id.length ≤ 31 ∧ obj ≠ 0 := hwf (id, obj) (by simp)
      unfold runRegs
      rw [regWidget_asEntries hm.1 hid.1 hid.2]
      simp only [List.foldl_cons]
      exact runRegs_asEntries rest (specInsert m id obj)
        (fun p hp => hwf p (by simp [hp]))
        (specInsert_wf hm hid.1 hid.2)

theorem specRun_wf (regs : List (List Char × Nat)) (hwf : wfRegs regs) :
    wfMap (specRun regs) := by
  unfold specRun
  have : ∀ (rs : List (List Char × Nat)) (m : List (List Char × Nat)),
      wfRegs rs → wfMap m → wfMap (rs.foldl (fun m p => specInsert m p.1 p.2) m) := by
    intro rs
    induction rs with
    | nil => intro m _ hm; exact hm
    | cons p ps ih =>
        intro m hrs hm
        have hp : p.1.length ≤ 31 ∧ p.2 ≠ 0 := hrs p (by simp)
        simp only [List.foldl_cons]
        exact ih _ (fun q hq => hrs q (by simp [hq])) (specInsert_wf hm hp.1 hp.2)
  exact this regs [] hwf ⟨List.nodup_nil, by simp⟩

theorem specRun_not_mem {regs : List (List Char × Nat)} {id : List Char}
    (h : id ∉ regs.map Prod.fst) : specLookup id (specRun regs) = none := by
  unfold specRun
  have : ∀ (rs : List (List Char × Nat)) (m : List (List Char × Nat)),
      (∀ p ∈ rs, p.1 ≠ id) → specLookup id m = none →
      specLookup id (rs.foldl (fun m p => specInsert m p.1 p.2) m) = none := by
    intro rs
    induction rs with
    | nil => intro m _ hm; exact hm
    | cons p ps ih =>
        intro m hrs hm
        simp only [List.foldl_cons]
        apply ih _ (fun q hq => hrs q (by simp [hq]))
        unfold specInsert
        split
        · exact hm
        · split
          · rw [specLookup_update_ne _ (hrs p (by simp))]
            exact hm
          · exact specLookup_append_none _ hm (hrs p (by simp))
  apply this regs [] _ rfl
  intro p hp hpe
  exact h (by rw [← hpe]; exact List.mem_map_of_mem Prod.fst hp)

theorem updDup_none {st : List WEntry} {id : List Char} (obj : Nat)
    (h : ∀ e ∈ st, e.id ≠ id) : updDup id obj st = none := by
  induction st with
  | nil => rfl
  | cons e rest ih =>
      unfold updDup
      rw [if_neg (by simp [h e (by simp)])]
      rw [ih (fun e' he' => h e' (by simp [he']))]
      rfl

theorem findWidget_cons (e : WEntry) (rest : List WEntry) (q : List Char) :
    findWidget (e :: rest) q =
      if (e.active && decide (e.id = q)) = true then e.obj
      else findWidget rest q := rfl

theorem findWidget_append_of_no_match {st st2 : List WEntry} {q : List Char}
    (h : ∀ e ∈ st, ¬(e.active = true ∧ e.id = q)) :
    findWidget (st ++ st2) q = findWidget st2 q := by
  induction st with
  | nil => rfl
  | cons e rest ih =>
      have hcond : ¬((e.active && decide (e.id = q)) = true) := by
        simp only [Bool.and_eq_true, decide_eq_true_eq]
        exact fun hh => h e (by simp) ⟨hh.1, hh.2⟩
      rw [List.cons_append, findWidget_cons, if_neg hcond]
      exact ih (fun e' he' => h e' (by simp [he']))

theorem findWidget_zero_no_match {st : List WEntry} {q : List Char}
    (hnz : ∀ e ∈ st, e.obj ≠ 0) (h : findWidget st q = 0) :
    ∀ e ∈ st, ¬(e.active = true ∧ e.id = q) := by
  induction st with
  | nil => simp
  | cons e rest ih =>
      unfold findWidget at h
      split at h
      · exact absurd h (hnz e (by simp))
      · rename_i hcond
        intro e' he'
        rcases List.mem_cons.mp he' with he' | he'
        · subst he'
          intro hh
          exact hcond (by simp [hh.1, hh.2])
        · exact ih (fun x hx => hnz x (by simp [hx])) h e' he'

/-- Claim C2 (amended): over register sequences whose ids are at most 31
    bytes (below the strncpy truncation limit) and whose handles are
    non-NULL, the registry refines the last-writer-wins association map of
    capacity 64: resolve returns the handle of the most recent successful
    register, resolve of a never-registered id returns NULL, and a
    register of an already-present id replaces the handle and returns
    TEST_OK provided the registry is not full. -/
theorem c2_registry_lastwins (regs : List (List Char × Nat)) (hwf : wfRegs regs) :
    (∀ id, findWidget (runRegs [] regs) id = valOf (specLookup id (specRun regs))) ∧
    (∀ id, id ∉ regs.map Prod.fst → findWidget (runRegs [] regs) id = 0) ∧
    (∀ id obj, id.length ≤ 31 → obj ≠ 0 →
      (∃ e ∈ runRegs [] regs, e.id = id) → (runRegs [] regs).length < 64 →
      (regWidget (runRegs [] regs) (some id) obj).1 = TEST_OK ∧
      findWidget (regWidget (runRegs [] regs) (some id) obj).2 id = obj) := by
  have hwfm := specRun_wf regs hwf
  have hrun : runRegs [] regs = asEntries (specRun regs) :=
    runRegs_asEntries regs [] hwf ⟨by simp, by simp⟩
  refine ⟨?_, ?_, ?_⟩
  · intro id
    rw [hrun, findWidget_asEntries]
  · intro id hid
    rw [hrun, findWidget_asEntries, specRun_not_mem hid]
    rfl
  · intro id obj hlen hobj hex hcap
    rw [hrun] at hex hcap ⊢
    have hmem : id ∈ (specRun regs).map Prod.fst := by
      obtain ⟨e, he, heid⟩ := hex
      unfold asEntries at he
      simp only [List.mem_map] at he
      obtain ⟨p, hp, hpe⟩ := he
      subst hpe
      simp only at heid
      subst heid
      exact List.mem_map_of_mem Prod.fst hp
    obtain ⟨o0, ho0⟩ : ∃ o, specLookup id (specRun regs) = some o := by
      cases h : specLookup id (specRun regs) with
      | none => exact absurd hmem (specLookup_none_iff.mp h)
      | some o => exact ⟨o, rfl⟩
    have hlm : (asEntries (specRun regs)).length = (specRun regs).length := by
      simp [asEntries]
    have hcap' : ¬64 ≤ (specRun regs).length := by omega
    rw [regWidget_asEntries hwfm.1 hlen hobj]
    refine ⟨by rw [if_neg hcap'], ?_⟩
    rw [findWidget_asEntries, specInsert, if_neg hcap', ho0]
    dsimp only
    rw [specLookup_update_self obj ho0]
    rfl

/-- Claim C2 counterexample: registering a 32-byte id is reported as
    TEST_OK, yet resolving that very id afterwards returns NULL, because
    reg_widget stored only the first 31 bytes. -/
theorem c2_counterexample :
    (regWidget [] (some (List.replicate 32 'a')) 1).1 = TEST_OK ∧
    findWidget (regWidget [] (some (List.replicate 32 'a')) 1).2
      (List.replicate 32 'a') = 0 := by
  decide

theorem c2_registry_lastwins_witness :
    (findWidget (runRegs [] [(['a'], 1), (['b'], 2), (['a'], 3)]) ['a'] =
      valOf (specLookup ['a'] (specRun [(['a'], 1), (['b'], 2), (['a'], 3)]))) ∧
    findWidget (runRegs [] [(['a'], 1), (['b'], 2), (['a'], 3)]) ['c'] = 0 :=
  ⟨(c2_registry_lastwins [(['a'], 1), (['b'], 2), (['a'], 3)] (by decide)).1 ['a'],
   (c2_registry_lastwins [(['a'], 1), (['b'], 2), (['a'], 3)] (by decide)).2.1
     ['c'] (by decide)⟩

/-- Claim C10 (confirmed): registering an id of 32 bytes or more silently
    stores only its first 31 bytes and returns TEST_OK; a subsequent
    resolve with the full id returns NULL, while a resolve with the
    31-byte truncation returns the registered handle. -/
theorem c10_long_id_truncation (st : List WEntry) (id : List Char) (obj : Nat)
    (hgood : ∀ e ∈ st, e.active = true ∧ e.id.length ≤ 31 ∧ e.obj ≠ 0)
    (hlen : 32 ≤ id.length) (hobj : obj ≠ 0) (hcap : st.length < 64)
    (hpre : findWidget st (id.take 31) = 0) :
    (regWidget st (some id) obj).1 = TEST_OK ∧
    findWidget (regWidget st (some id) obj).2 id = 0 ∧
    findWidget (regWidget st (some id) obj).2 (id.take 31) = obj := by
  have htk : id.take (MAX_ID_LEN - 1) = id.take 31 := by
    norm_num [MAX_ID_LEN]
  have htl : (id.take 31).length = 31 := by
    rw [List.length_take]
    omega
  have hne : ∀ e ∈ st, e.id ≠ id := by
    intro e he hh
    have := (hgood e he).2.1
    rw [hh] at this
    omega
  have htne : id.take 31 ≠ id := by
    intro hh
    have := congrArg List.length hh
    rw [htl] at this
    omega
  unfold regWidget
  dsimp only
  rw [if_neg (by simp only [MAX_WIDGETS, ge_iff_le, Bool.or_eq_true,
    decide_eq_true_eq]; omega)]
  rw [updDup_none obj hne]
  dsimp only
  rw [htk]
  refine ⟨rfl, ?_, ?_⟩
  · rw [findWidget_append_of_no_match (fun e he hh => hne e he hh.2)]
    unfold findWidget
    rw [if_neg (by simp [htne])]
    rfl
  · rw [findWidget_append_of_no_match
      (findWidget_zero_no_match (fun e he => (hgood e he).2.2) hpre)]
    unfold findWidget
    rw [if_pos (by simp)]

theorem c10_long_id_truncation_witness :
    (regWidget [] (some (List.replicate 32 'b')) 7).1 = TEST_OK ∧
    findWidget (regWidget [] (some (List.replicate 32 'b')) 7).2
      (List.replicate 32 'b') = 0 ∧
    findWidget (regWidget [] (some (List.replicate 32 'b')) 7).2
      ((List.replicate 32 'b').take 31) = 7 :=
  c10_long_id_truncation [] (List.replicate 32 'b') 7 (by simp) (by decide)
    (by decide) (by decide) (by decide)

/-! ### The queue invariant and its contents -/

/-- Indexing and bookkeeping invariant of the circular buffer. -/
def qInv (q : Queue) : Prop :=
  q.slots.length = 32 ∧ q.head < 32 ∧
    q.tail = (q.head + q.size) % 32 ∧ q.size ≤ 32

/-- The live slots, oldest first: positions head, head+1, ..., modulo the
    32-slot buffer. -/
def qContents (q : Queue) : List Slot :=
  (List.range q.size).map (fun i => q.slots.getD ((q.head + i) % 32) zeroSlot)

theorem getDset_ne {α : Type} {l : List α} {i j : Nat} {a d : α} (h : i ≠ j) :
    (l.set i a).getD j d = l.getD j d := by
  simp [List.getD, List.getElem?_set_ne h]

theorem getDset_self {α : Type} {l : List α} {i : Nat} {a d : α}
    (h : i < l.length) : (l.set i a).getD i d = a := by
  simp [List.getD, List.getElem?_set_self, h]

theorem queuePush_ok {q : Queue} (c : CmdVal) (hinv : qInv q)
    (hsz : q.size < 32) :
    queuePush q c =
      (TEST_OK,
        { slots := q.slots.set ((q.head + q.size) % 32) (initSlot c),
          head := q.head,
          tail := (q.head + q.size + 1) % 32,
          size := q.size + 1 }) := by
  obtain ⟨h1, h2, h3, h4⟩ := hinv
  unfold queuePush
  rw [if_neg (by simp only [MAX_COMMAND_QUEUE, ge_iff_le]; omega)]
  simp only [MAX_COMMAND_QUEUE, h3, Nat.mod_add_mod]

theorem qContents_push {q : Queue} (c : CmdVal) (hinv : qInv q)
    (hsz : q.size < 32) :
    qContents (queuePush q c).2 = qContents q ++ [initSlot c] ∧
    qInv (queuePush q c).2 ∧ (queuePush q c).2.head = q.head ∧
    (queuePush q c).2.size = q.size + 1 := by
  obtain ⟨h1, h2, h3, h4⟩ := hinv
  rw [queuePush_ok c ⟨h1, h2, h3, h4⟩ hsz]
  refine ⟨?_, ⟨by simp [h1], h2, rfl, by show q.size + 1 ≤ 32; omega⟩, rfl, rfl⟩
  unfold qContents
  simp only [List.range_succ, List.map_append, List.map_cons, List.map_nil]
  congr 1
  · apply List.map_congr_left
    intro i hi
    rw [List.mem_range] at hi
    exact getDset_ne (by omega)
  · rw [getDset_self (by rw [h1]; exact Nat.mod_lt _ (by omega))]

theorem pushAll_spec :
    ∀ (cs : List CmdVal) (q : Queue), qInv q → q.size + cs.length ≤ 32 →
      (∀ r ∈ (pushAll q cs).1, r = TEST_OK) ∧
      qInv (pushAll q cs).2 ∧ (pushAll q cs).2.head = q.head ∧
      (pushAll q cs).2.size = q.size + cs.length ∧
      qContents (pushAll q cs).2 = qContents q ++ cs.map initSlot
  | [], q, hinv, _ => by
      refine ⟨by simp [pushAll], hinv, rfl, by simp [pushAll], by simp [pushAll]⟩
  | c :: cs, q, hinv, hsz => by
      simp only [List.length_cons] at hsz
      have hlt : q.size < 32 := by omega
      have hstep := qContents_push c hinv hlt
      have hres : (queuePush q c).1 = TEST_OK := by
        rw [queuePush_ok c hinv hlt]
      have ih := pushAll_spec cs (queuePush q c).2 hstep.2.1
        (by rw [hstep.2.2.2]; omega)
      unfold pushAll
      constructor
      · intro r hr
        simp only [List.mem_cons] at hr
        rcases hr with hr | hr
        · rw [hr, ← hres]
        · exact ih.1 r hr
      refine ⟨ih.2.1, by rw [ih.2.2.1, hstep.2.2.1], ?_, ?_⟩
      · rw [ih.2.2.2.1, hstep.2.2.2]
        simp only [List.length_cons]
        omega
      · rw [ih.2.2.2.2, hstep.1]
        simp

/-! ### The drain loop -/

/-- One iteration of command_queue_process_all: execute the head slot in
    place, advance head, decrement size. -/
def stepQ (env : Env) (ext : ExtEnv) (q : Queue) : Queue :=
  { q with
    slots := q.slots.set q.head
      ((execSlot env ext (q.slots.getD q.head zeroSlot)).1),
    head := (q.head + 1) % MAX_COMMAND_QUEUE,
    size := q.size - 1 }

theorem processAllGo_zero (env : Env) (ext : ExtEnv) (q : Queue) (n : Nat)
    (tr : List CmdVal) (h : q.size = 0) :
    processAllGo env ext q n tr = (n, q, tr) := by
  rw [processAllGo, dif_pos h]

theorem processAllGo_succ (env : Env) (ext : ExtEnv) (q : Queue) (n : Nat)
    (tr : List CmdVal) (h : ¬q.size = 0) :
    processAllGo env ext q n tr =
      processAllGo env ext (stepQ env ext q) (n + 1)
        (tr ++ [(q.slots.getD q.head zeroSlot).cmd]) := by
  conv_lhs => rw [processAllGo]
  rw [dif_neg h]
  rfl

theorem stepQ_inv {env : Env} {ext : ExtEnv} {q : Queue} (hinv : qInv q)
    (h : q.size ≠ 0) : qInv (stepQ env ext q) := by
  obtain ⟨h1, h2, h3, h4⟩ := hinv
  refine ⟨by simp [stepQ, h1], ?_, ?_, ?_⟩
  · simp only [stepQ, MAX_COMMAND_QUEUE]
    exact Nat.mod_lt _ (by omega)
  · simp only [stepQ, MAX_COMMAND_QUEUE, Nat.mod_add_mod]
    rw [h3]
    congr 1
    omega
  · simp only [stepQ]
    omega

theorem qContents_step {env : Env} {ext : ExtEnv} {q : Queue} (hinv : qInv q)
    (h : q.size ≠ 0) :
    qContents q = q.slots.getD q.head zeroSlot :: qContents (stepQ env ext q) := by
  obtain ⟨h1, h2, h3, h4⟩ := hinv
  obtain ⟨s, hs⟩ : ∃ s, q.size = s + 1 := ⟨q.size - 1, by omega⟩
  unfold qContents stepQ
  simp only [hs, MAX_COMMAND_QUEUE, Nat.add_sub_cancel,
    List.range_succ_eq_map, List.map_cons, List.map_map]
  congr 1
  · rw [Nat.add_zero, Nat.mod_eq_of_lt h2]
  · apply List.map_congr_left
    intro i hi
    rw [List.mem_range] at hi
    simp only [Function.comp]
    rw [Nat.mod_add_mod]
    rw [getDset_ne (by omega)]
    congr 1
    omega

theorem processAllGo_spec (env : Env) (ext : ExtEnv) :
    ∀ (s : Nat) (q : Queue) (n : Nat) (tr : List CmdVal), qInv q → q.size = s →
      (processAllGo env ext q n tr).1 = n + s ∧
      (processAllGo env ext q n tr).2.1.size = 0 ∧
      (processAllGo env ext q n tr).2.2 = tr ++ (qContents q).map Slot.cmd ∧
      (∀ i, i < s →
        (processAllGo env ext q n tr).2.1.slots.getD ((q.head + i) % 32) zeroSlot =
          (execSlot env ext ((qContents q).getD i zeroSlot)).1) ∧
      (∀ j, (∀ i, i < s → j ≠ (q.head + i) % 32) →
        (processAllGo env ext q n tr).2.1.slots.getD j zeroSlot =
          q.slots.getD j zeroSlot)
  | 0, q, n, tr, hinv, hs => by
      rw [processAllGo_zero env ext q n tr hs]
      refine ⟨by omega, hs, ?_, by omega, fun j _ => rfl⟩
      unfold qContents
      rw [hs]
      simp
  | s + 1, q, n, tr, hinv, hs => by
      have hne : ¬q.size = 0 := by omega
      have hinv' := @stepQ_inv env ext q hinv hne
      have hs' : (stepQ env ext q).size = s := by simp [stepQ, hs]
      have hcut := @qContents_step env ext q hinv hne
      have ih := processAllGo_spec env ext s (stepQ env ext q) (n + 1)
        (tr ++ [(q.slots.getD q.head zeroSlot).cmd]) hinv' hs'
      rw [processAllGo_succ env ext q n tr hne]
      obtain ⟨hinv1, hinv2, hinv3, hinv4⟩ := hinv
      have hhead : (stepQ env ext q).head = (q.head + 1) % 32 := by
        simp [stepQ, MAX_COMMAND_QUEUE]
      refine ⟨by rw [ih.1]; omega, ih.2.1, ?_, ?_, ?_⟩
      · rw [ih.2.2.1, hcut]
        simp
      · intro i hi
        cases i with
        | zero =>
            have hidx : (q.head + 0) % 32 = q.head := by omega
            rw [hidx]
            rw [ih.2.2.2.2 q.head ?_]
            · rw [hcut]
              simp only [stepQ, List.getD_cons_zero]
              rw [getDset_self (by rw [hinv1]; exact hinv2)]
            · intro i' hi' heq
              rw [hhead, Nat.mod_add_mod] at heq
              omega
        | succ i' =>
            have hi' : i' < s := by omega
            have := ih.2.2.2.1 i' hi'
            rw [hhead, Nat.mod_add_mod] at this
            rw [show q.head + 1 + i' = q.head + (i' + 1) from by omega] at this
            rw [this, hcut]
            simp
      · intro j hj
        rw [ih.2.2.2.2 j ?_]
        · simp only [stepQ]
          rw [getDset_ne ?_]
          have := hj 0 (by omega)
          rw [show (q.head + 0) % 32 = q.head from by omega] at this
          exact fun hh => this hh.symm
        · intro i' hi' heq
          rw [hhead, Nat.mod_add_mod] at heq
          exact hj (i' + 1) (by omega) (by rw [show q.head + (i' + 1) =
            q.head + 1 + i' from by omega]; exact heq)

theorem qContents_getD {q : Queue} {i : Nat} (h : i < q.size) :
    (qContents q).getD i zeroSlot = q.slots.getD ((q.head + i) % 32) zeroSlot := by
  unfold qContents
  rw [List.getD_eq_getElem _ _ (by simp [h])]
  simp

theorem getD_map_initSlot :
    ∀ (cs : List CmdVal) (i : Nat), i < cs.length →
      (cs.map initSlot).getD i zeroSlot = initSlot (cs.getD i (.click []))
  | [], i, h => by simp at h
  | c :: cs, 0, _ => rfl
  | c :: cs, i + 1, h => by
      simp only [List.map_cons, List.getD_cons_succ]
      exact getD_map_initSlot cs i (by simpa using h)

/-- Claim C4 (confirmed): command_queue_push on a queue already holding 32
    unprocessed commands returns TEST_ERROR_QUEUE_FULL immediately and
    leaves the whole queue state (head, tail, size and every stored slot)
    exactly as it was. -/
theorem c4_push_full_rejects (q : Queue) (c : CmdVal) (h : q.size = 32) :
    queuePush q c = (TEST_ERROR_QUEUE_FULL, q) := by
  unfold queuePush
  rw [if_pos (by simp only [MAX_COMMAND_QUEUE, ge_iff_le]; omega)]

theorem c4_push_full_rejects_witness :
    queuePush
      { slots := List.replicate 32 zeroSlot, head := 0, tail := 0, size := 32 }
      (.waitMs 5) =
    (TEST_ERROR_QUEUE_FULL,
      { slots := List.replicate 32 zeroSlot, head := 0, tail := 0, size := 32 }) :=
  c4_push_full_rejects _ _ rfl

/-- Claim C3 (confirmed): pushing at most 32 commands onto the empty queue
    succeeds, initialises every pushed slot with completed = 0, and
    command_queue_process_all then executes them in exactly the push
    order, leaves the queue empty, returns the number processed, stores
    each slot back with the handler result recorded, and sets the
    completion flag (execSlot always finishes a slot with completed = 1,
    so each flag moves from 0 to 1 exactly once, when its handler ends). -/
theorem c3_drain_fifo (env : Env) (ext : ExtEnv) (cs : List CmdVal)
    (hlen : cs.length ≤ 32) :
    (∀ r ∈ (pushAll queueInit cs).1, r = TEST_OK) ∧
    (∀ i, i < cs.length →
      ((pushAll queueInit cs).2.slots.getD (i % 32) zeroSlot).completed = false ∧
      ((pushAll queueInit cs).2.slots.getD (i % 32) zeroSlot).cmd =
        cs.getD i (.click [])) ∧
    (processAll env ext (pushAll queueInit cs).2).1 = cs.length ∧
    (processAll env ext (pushAll queueInit cs).2).2.1.size = 0 ∧
    (processAll env ext (pushAll queueInit cs).2).2.2 = cs ∧
    (∀ i, i < cs.length →
      (processAll env ext (pushAll queueInit cs).2).2.1.slots.getD (i % 32)
          zeroSlot =
        (execSlot env ext (initSlot (cs.getD i (.click [])))).1) ∧
    (∀ s : Slot, (execSlot env ext s).1.completed = true) := by
  have hinv0 : qInv queueInit := by
    refine ⟨?_, ?_, ?_, ?_⟩ <;> simp [queueInit, MAX_COMMAND_QUEUE]
  have h0 : qContents queueInit = [] := by simp [qContents, queueInit]
  have hq := pushAll_spec cs queueInit hinv0
    (by simp only [queueInit]; omega)
  have hhead : (pushAll queueInit cs).2.head = 0 := hq.2.2.1
  have hsize : (pushAll queueInit cs).2.size = cs.length := by
    rw [hq.2.2.2.1]
    simp [queueInit]
  have hcont : qContents (pushAll queueInit cs).2 = cs.map initSlot := by
    rw [hq.2.2.2.2, h0]
    simp
  have hslot : ∀ i, i < cs.length →
      (pushAll queueInit cs).2.slots.getD (i % 32) zeroSlot =
        initSlot (cs.getD i (.click [])) := by
    intro i hi
    have h1 := @qContents_getD (pushAll queueInit cs).2 i
      (by rw [hsize]; omega)
    rw [hcont, hhead, Nat.zero_add, getD_map_initSlot cs i hi] at h1
    exact h1.symm
  have hp := processAllGo_spec env ext cs.length (pushAll queueInit cs).2 0 []
    hq.2.1 hsize
  refine ⟨hq.1, ?_, ?_, hp.2.1, ?_, ?_, ?_⟩
  · intro i hi
    rw [hslot i hi]
    exact ⟨rfl, rfl⟩
  · rw [show processAll env ext (pushAll queueInit cs).2 =
      processAllGo env ext (pushAll queueInit cs).2 0 [] from rfl, hp.1]
    omega
  · rw [show processAll env ext (pushAll queueInit cs).2 =
      processAllGo env ext (pushAll queueInit cs).2 0 [] from rfl,
      hp.2.2.1, hcont]
    simp only [List.nil_append, List.map_map]
    exact List.map_id cs
  · intro i hi
    have h6 := hp.2.2.2.1 i (by omega)
    rw [hhead, Nat.zero_add] at h6
    rw [show processAll env ext (pushAll queueInit cs).2 =
      processAllGo env ext (pushAll queueInit cs).2 0 [] from rfl, h6,
      hcont, getD_map_initSlot cs i hi]
  · intro s
    obtain ⟨c, r, rt, rd, rl, co⟩ := s
    cases c <;> rfl

/-! ### Concrete instances used by witnesses and counterexamples -/

/-- A UI state with one registered widget, the heart-rate button. -/
def envA : Env := { reg := [⟨"btn_heart".data, 1, true⟩], textOf := fun _ => none }

/-- The empty registry. -/
def envEmpty : Env := { reg := [], textOf := fun _ => none }

/-- External operations that all succeed. -/
def extA : ExtEnv :=
  { clickAtRes := fun _ _ => 0, mouseMoveRes := fun _ _ => 0,
    dragRes := fun _ _ _ _ => 0, shotRes := 0, shotData := true, shotLen := 4 }

theorem c3_drain_fifo_witness :
    (processAll envA extA
      (pushAll queueInit [CmdVal.click ("btn_heart".data), CmdVal.waitMs 3]).2).2.2 =
      [CmdVal.click ("btn_heart".data), CmdVal.waitMs 3] ∧
    (processAll envA extA
      (pushAll queueInit [CmdVal.click ("btn_heart".data), CmdVal.waitMs 3]).2).1 = 2 :=
  ⟨(c3_drain_fifo envA extA
      [CmdVal.click ("btn_heart".data), CmdVal.waitMs 3] (by decide)).2.2.2.2.1,
   (c3_drain_fifo envA extA
      [CmdVal.click ("btn_heart".data), CmdVal.waitMs 3] (by decide)).2.2.1⟩

/-- Claim C1 (code_bug): the intended contract routes every decoded
    command through the queue, execution only by the UI pump, with the
    network thread polling the completion flag.  The code instead calls
    the test_* handler directly inside process_command on the network
    thread: at the failing input, the click request, process_command
    itself resolves the widget and performs the click effect; nothing in
    tcp_server.c ever calls command_queue_push or reads a completion
    flag (the queue API is exercised only by main's drain loop). -/
theorem c1_direct_dispatch_on_network_thread :
    processCommand envA extA
      (render [("cmd".data, .jstr ("click".data)),
               ("id".data, .jstr ("btn_heart".data))]) =
      (.ok ("click".data), [.click ("btn_heart".data)]) := by
  decide

/-- Every error string process_command can place in the error field. -/
def errorReasons : List (List Char) :=
  ["invalid_json".data, "missing_id".data, "invalid_coordinates".data,
   "invalid_key_code".data, "missing_parameters".data, "widget_not_found".data,
   "unknown_command".data, "screenshot_failed".data, "swipe_failed".data,
   "key_event_failed".data, "click_failed".data, "mouse_move_failed".data,
   "drag_failed".data]

theorem mem_er_invalid_json : ("invalid_json".data) ∈ errorReasons := by
  unfold errorReasons
  repeat first | exact List.Mem.head _ | apply List.Mem.tail

theorem mem_er_missing_id : ("missing_id".data) ∈ errorReasons := by
  unfold errorReasons
  repeat first | exact List.Mem.head _ | apply List.Mem.tail

theorem mem_er_invalid_coordinates :
    ("invalid_coordinates".data) ∈ errorReasons := by
  unfold errorReasons
  repeat first | exact List.Mem.head _ | apply List.Mem.tail

theorem mem_er_invalid_key_code : ("invalid_key_code".data) ∈ errorReasons := by
  unfold errorReasons
  repeat first | exact List.Mem.head _ | apply List.Mem.tail

theorem mem_er_missing_parameters :
    ("missing_parameters".data) ∈ errorReasons := by
  unfold errorReasons
  repeat first | exact List.Mem.head _ | apply List.Mem.tail

theorem mem_er_widget_not_found : ("widget_not_found".data) ∈ errorReasons := by
  unfold errorReasons
  repeat first | exact List.Mem.head _ | apply List.Mem.tail

theorem mem_er_unknown_command : ("unknown_command".data) ∈ errorReasons := by
  unfold errorReasons
  repeat first | exact List.Mem.head _ | apply List.Mem.tail

theorem mem_er_screenshot_failed :
    ("screenshot_failed".data) ∈ errorReasons := by
  unfold errorReasons
  repeat first | exact List.Mem.head _ | apply List.Mem.tail

theorem mem_er_swipe_failed : ("swipe_failed".data) ∈ errorReasons := by
  unfold errorReasons
  repeat first | exact List.Mem.head _ | apply List.Mem.tail

theorem mem_er_key_event_failed :
    ("key_event_failed".data) ∈ errorReasons := by
  unfold errorReasons
  repeat first | exact List.Mem.head _ | apply List.Mem.tail

theorem mem_er_click_failed : ("click_failed".data) ∈ errorReasons := by
  unfold errorReasons
  repeat first | exact List.Mem.head _ | apply List.Mem.tail

theorem mem_er_mouse_move_failed :
    ("mouse_move_failed".data) ∈ errorReasons := by
  unfold errorReasons
  repeat first | exact List.Mem.head _ | apply List.Mem.tail

theorem mem_er_drag_failed : ("drag_failed".data) ∈ errorReasons := by
  unfold errorReasons
  repeat first | exact List.Mem.head _ | apply List.Mem.tail

/-- Claim C6 (amended): for every request line whose response is an error,
    the error field is one of exactly thirteen reasons: the ten the spec
    lists plus invalid_key_code (malformed key command), mouse_move_failed
    and drag_failed (failing mouse_move and drag commands); no other
    string is ever surfaced. -/
theorem c6_error_vocabulary (env : Env) (ext : ExtEnv) (line : List Char)
    (c e : List Char) (h : (processCommand env ext line).1 = .err c e) :
    e ∈ errorReasons := by
  unfold processCommand at h
  cases hc : readStringKey line ("cmd".data) 32 with
  | none =>
      rw [hc] at h
      dsimp only at h
      injection h with h1 h2
      subst h2
      exact mem_er_invalid_json
  | some cmd =>
  rw [hc] at h
  dsimp only at h
  by_cases e1 : cmd = ("click".data)
  · rw [if_pos e1] at h
    cases hid : readStringKey line ("id".data) 64 with
    | none =>
        rw [hid] at h
        dsimp only at h
        injection h with h1 h2
        subst h2
        exact mem_er_missing_id
    | some id =>
        rw [hid] at h
        dsimp only at h
        by_cases hr : (testClick env id).1 = TEST_OK
        · rw [if_pos hr] at h
          exact Resp.noConfusion h
        · rw [if_neg hr] at h
          injection h with h1 h2
          subst h2
          exact mem_er_widget_not_found
  rw [if_neg e1] at h
  by_cases e2 : cmd = ("longpress".data)
  · rw [if_pos e2] at h
    cases hid : readStringKey line ("id".data) 64 with
    | none =>
        rw [hid] at h
        dsimp only at h
        injection h with h1 h2
        subst h2
        exact mem_er_missing_id
    | some id =>
        rw [hid] at h
        dsimp only at h
        by_cases hr : (testLongpress env id (readMsOr line 1000).toNat).1 = TEST_OK
        · rw [if_pos hr] at h
          exact Resp.noConfusion h
        · rw [if_neg hr] at h
          injection h with h1 h2
          subst h2
          exact mem_er_widget_not_found
  rw [if_neg e2] at h
  by_cases e3 : cmd = ("swipe".data)
  · rw [if_pos e3] at h
    cases hx1 : readNonneg line ("x1".data) with
    | none =>
        rw [hx1] at h
        dsimp only at h
        injection h with h1 h2
        subst h2
        exact mem_er_invalid_coordinates
    | some x1 =>
    rw [hx1] at h
    cases hy1 : readNonneg line ("y1".data) with
    | none =>
        rw [hy1] at h
        dsimp only at h
        injection h with h1 h2
        subst h2
        exact mem_er_invalid_coordinates
    | some y1 =>
    rw [hy1] at h
    cases hx2 : readNonneg line ("x2".data) with
    | none =>
        rw [hx2] at h
        dsimp only at h
        injection h with h1 h2
        subst h2
        exact mem_er_invalid_coordinates
    | some x2 =>
    rw [hx2] at h
    cases hy2 : readNonneg line ("y2".data) with
    | none =>
        rw [hy2] at h
        dsimp only at h
        injection h with h1 h2
        subst h2
        exact mem_er_invalid_coordinates
    | some y2 =>
    rw [hy2] at h
    dsimp only at h
    by_cases hr : (testSwipe x1 y1 x2 y2).1 = TEST_OK
    · rw [if_pos hr] at h
      exact Resp.noConfusion h
    · rw [if_neg hr] at h
      injection h with h1 h2
      subst h2
      exact mem_er_swipe_failed
  rw [if_neg e3] at h
  by_cases e4 : cmd = ("key".data)
  · rw [if_pos e4] at h
    cases hcode : readNonneg line ("code".data) with
    | none =>
        rw [hcode] at h
        dsimp only at h
        injection h with h1 h2
        subst h2
        exact mem_er_invalid_key_code
    | some code =>
        rw [hcode] at h
        dsimp only at h
        by_cases hr : (testKeyEvent code).1 = TEST_OK
        · rw [if_pos hr] at h
          exact Resp.noConfusion h
        · rw [if_neg hr] at h
          injection h with h1 h2
          subst h2
          exact mem_er_key_event_failed
  rw [if_neg e4] at h
  by_cases e5 : cmd = ("get_state".data)
  · rw [if_pos e5] at h
    cases hid : readStringKey line ("id".data) 64 with
    | none =>
        rw [hid] at h
        dsimp only at h
        injection h with h1 h2
        subst h2
        exact mem_er_missing_id
    | some id =>
        rw [hid] at h
        dsimp only at h
        cases ht : (testGetText env id).1 with
        | some text =>
            rw [ht] at h
            exact Resp.noConfusion h
        | none =>
            rw [ht] at h
            injection h with h1 h2
            subst h2
            exact mem_er_widget_not_found
  rw [if_neg e5] at h
  by_cases e6 : cmd = ("set_text".data)
  · rw [if_pos e6] at h
    cases hid : readStringKey line ("id".data) 64 with
    | none =>
        rw [hid] at h
        dsimp only at h
        injection h with h1 h2
        subst h2
        exact mem_er_missing_parameters
    | some id =>
    rw [hid] at h
    cases htx : readStringKey line ("text".data) 256 with
    | none =>
        rw [htx] at h
        dsimp only at h
        injection h with h1 h2
        subst h2
        exact mem_er_missing_parameters
    | some text =>
        rw [htx] at h
        dsimp only at h
        by_cases hr : (testSetText env id text).1 = TEST_OK
        · rw [if_pos hr] at h
          exact Resp.noConfusion h
        · rw [if_neg hr] at h
          injection h with h1 h2
          subst h2
          exact mem_er_widget_not_found
  rw [if_neg e6] at h
  by_cases e7 : cmd = ("screenshot".data)
  · rw [if_pos e7] at h
    by_cases hr : (testScreenshot ext).1 = TEST_OK ∧
        (testScreenshot ext).2.1 = true ∧ (testScreenshot ext).2.2.1 > 0
    · rw [if_pos hr] at h
      exact Resp.noConfusion h
    · rw [if_neg hr] at h
      injection h with h1 h2
      subst h2
      exact mem_er_screenshot_failed
  rw [if_neg e7] at h
  by_cases e8 : cmd = ("wait".data)
  · rw [if_pos e8] at h
    exact Resp.noConfusion h
  rw [if_neg e8] at h
  by_cases e9 : cmd = ("click_at".data)
  · rw [if_pos e9] at h
    cases hx : readNonneg line ("x".data) with
    | none =>
        rw [hx] at h
        dsimp only at h
        injection h with h1 h2
        subst h2
        exact mem_er_invalid_coordinates
    | some x =>
    rw [hx] at h
    cases hy : readNonneg line ("y".data) with
    | none =>
        rw [hy] at h
        dsimp only at h
        injection h with h1 h2
        subst h2
        exact mem_er_invalid_coordinates
    | some y =>
        rw [hy] at h
        dsimp only at h
        by_cases hr : ext.clickAtRes x y = TEST_OK
        · rw [if_pos hr] at h
          exact Resp.noConfusion h
        · rw [if_neg hr] at h
          injection h with h1 h2
          subst h2
          exact mem_er_click_failed
  rw [if_neg e9] at h
  by_cases e10 : cmd = ("mouse_move".data)
  · rw [if_pos e10] at h
    cases hx : readNonneg line ("x".data) with
    | none =>
        rw [hx] at h
        dsimp only at h
        injection h with h1 h2
        subst h2
        exact mem_er_invalid_coordinates
    | some x =>
    rw [hx] at h
    cases hy : readNonneg line ("y".data) with
    | none =>
        rw [hy] at h
        dsimp only at h
        injection h with h1 h2
        subst h2
        exact mem_er_invalid_coordinates
    | some y =>
        rw [hy] at h
        dsimp only at h
        by_cases hr : ext.mouseMoveRes x y = TEST_OK
        · rw [if_pos hr] at h
          exact Resp.noConfusion h
        · rw [if_neg hr] at h
          injection h with h1 h2
          subst h2
          exact mem_er_mouse_move_failed
  rw [if_neg e10] at h
  by_cases e11 : cmd = ("drag".data)
  · rw [if_pos e11] at h
    cases hx1 : readNonneg line ("x1".data) with
    | none =>
        rw [hx1] at h
        dsimp only at h
        injection h with h1 h2
        subst h2
        exact mem_er_invalid_coordinates
    | some x1 =>
    rw [hx1] at h
    cases hy1 : readNonneg line ("y1".data) with
    | none =>
        rw [hy1] at h
        dsimp only at h
        injection h with h1 h2
        subst h2
        exact mem_er_invalid_coordinates
    | some y1 =>
    rw [hy1] at h
    cases hx2 : readNonneg line ("x2".data) with
    | none =>
        rw [hx2] at h
        dsimp only at h
        injection h with h1 h2
        subst h2
        exact mem_er_invalid_coordinates
    | some x2 =>
    rw [hx2] at h
    cases hy2 : readNonneg line ("y2".data) with
    | none =>
        rw [hy2] at h
        dsimp only at h
        injection h with h1 h2
        subst h2
        exact mem_er_invalid_coordinates
    | some y2 =>
        rw [hy2] at h
        dsimp only at h
        by_cases hr : ext.dragRes x1 y1 x2 y2 = TEST_OK
        · rw [if_pos hr] at h
          exact Resp.noConfusion h
        · rw [if_neg hr] at h
          injection h with h1 h2
          subst h2
          exact mem_er_drag_failed
  rw [if_neg e11] at h
  injection h with h1 h2
  subst h2
  exact mem_er_unknown_command

/-- Claim C6 counterexample: the request with command key and no code key
    is answered with the error invalid_key_code, which is not among the
    ten reasons the claim lists. -/
theorem c6_counterexample :
    (processCommand envEmpty extA (render [("cmd".data, .jstr ("key".data))])).1 =
      .err ("key".data) ("invalid_key_code".data) ∧
    ("invalid_key_code".data) ∉
      ["invalid_json".data, "missing_id".data, "invalid_coordinates".data,
       "missing_parameters".data, "widget_not_found".data,
       "unknown_command".data, "screenshot_failed".data, "swipe_failed".data,
       "key_event_failed".data, "click_failed".data] := by
  decide

theorem c6_error_vocabulary_witness : ("unknown_command".data) ∈ errorReasons :=
  c6_error_vocabulary envEmpty extA (render [("cmd".data, .jstr ("nope".data))])
    ("nope".data) ("unknown_command".data) (by decide)

/-- A UI state with one registered widget named w. -/
def envW : Env := { reg := [⟨"w".data, 3, true⟩], textOf := fun _ => none }

/-- Claim C7 (amended): a set_text request whose text value is any string
    of at most 255 bytes (no double quotes or newlines) decodes into a
    set_text whose text payload is byte-for-byte the wire value; the
    256-byte parse_string buffer truncates anything longer to its first
    255 bytes. -/
theorem c7_settext_roundtrip (env : Env) (ext : ExtEnv)
    (l : List (List Char × JVal)) (id t : List Char) (hwf : wfObj l)
    (hcmd : jlookup ("cmd".data) l = some (.jstr ("set_text".data)))
    (hid : jlookup ("id".data) l = some (.jstr id)) (hidlen : id.length < 64)
    (ht : jlookup ("text".data) l = some (.jstr t)) (htlen : t.length ≤ 255)
    (hfound : findWidget env.reg id ≠ 0) :
    processCommand env ext (render l) =
      (.ok ("set_text".data), [.setText id t]) := by
  unfold processCommand
  rw [readStringKey_render 32 hwf, hcmd]
  dsimp only
  rw [truncTo_of_lt (by decide)]
  rw [if_neg (by decide), if_neg (by decide), if_neg (by decide),
      if_neg (by decide), if_neg (by decide), if_pos rfl]
  rw [readStringKey_render 64 hwf, hid, readStringKey_render 256 hwf, ht]
  dsimp only
  rw [truncTo_of_lt hidlen, truncTo_of_lt (by omega)]
  unfold testSetText
  rw [if_neg hfound]
  dsimp only
  rw [if_pos rfl]

set_option maxRecDepth 20000 in
/-- Claim C7 counterexample: a set_text request carrying a 256-byte text
    is decoded with only its first 255 bytes, so the decoded payload is
    not byte-for-byte the wire value. -/
theorem c7_counterexample :
    processCommand envW extA
      (render [("cmd".data, .jstr ("set_text".data)),
               ("id".data, .jstr ("w".data)),
               ("text".data, .jstr (List.replicate 256 'a'))]) =
      (.ok ("set_text".data),
       [.setText ("w".data) (List.replicate 255 'a')]) ∧
    List.replicate 255 'a' ≠ List.replicate 256 'a' := by
  decide

theorem c7_settext_roundtrip_witness :
    processCommand envW extA
      (render [("cmd".data, .jstr ("set_text".data)),
               ("id".data, .jstr ("w".data)),
               ("text".data, .jstr ("hi there".data))]) =
      (.ok ("set_text".data), [.setText ("w".data) ("hi there".data)]) :=
  c7_settext_roundtrip envW extA _ _ _ (by decide) (by decide) (by decide)
    (by decide) (by decide) (by decide) (by decide)

theorem wrap32_small {n : Nat} (h : n < 2147483648) : wrap32 n = n := by
  unfold wrap32
  rw [Nat.mod_eq_of_lt (by omega), if_pos (by omega)]

theorem longpress_main (env : Env) (ext : ExtEnv)
    (l : List (List Char × JVal)) (id : List Char) (v : Nat) (hwf : wfObj l)
    (hcmd : jlookup ("cmd".data) l = some (.jstr ("longpress".data)))
    (hid : jlookup ("id".data) l = some (.jstr id)) (hidlen : id.length < 64)
    (hfound : findWidget env.reg id ≠ 0)
    (hv : readMsOr (render l) 1000 = (v : Int)) :
    processCommand env ext (render l) =
      (.ok ("longpress".data), [.longpress id v]) := by
  unfold processCommand
  rw [readStringKey_render 32 hwf, hcmd]
  dsimp only
  rw [truncTo_of_lt (by decide)]
  rw [if_neg (by decide), if_pos rfl]
  rw [readStringKey_render 64 hwf, hid]
  dsimp only
  rw [truncTo_of_lt hidlen, hv]
  unfold testLongpress
  rw [if_neg hfound]
  dsimp only
  rw [Int.toNat_natCast, if_pos rfl]

/-- Claim C8: for a longpress request addressing a registered widget, a
    missing ms key, a non-numeric ms value, a minus-signed ms value, and
    a numeric ms value that parses to a non-positive int (zero, or a
    literal whose 32-bit wrap is non-positive) all yield the 1000 ms
    default, while a positive in-range numeric ms value is used as
    given. -/
theorem c8_longpress_ms_default (env : Env) (ext : ExtEnv)
    (l : List (List Char × JVal)) (id : List Char) (hwf : wfObj l)
    (hcmd : jlookup ("cmd".data) l = some (.jstr ("longpress".data)))
    (hid : jlookup ("id".data) l = some (.jstr id)) (hidlen : id.length < 64)
    (hfound : findWidget env.reg id ≠ 0) :
    (jlookup ("ms".data) l = none →
      processCommand env ext (render l) =
        (.ok ("longpress".data), [.longpress id 1000])) ∧
    (∀ s, jlookup ("ms".data) l = some (.jstr s) →
      processCommand env ext (render l) =
        (.ok ("longpress".data), [.longpress id 1000])) ∧
    (∀ n, jlookup ("ms".data) l = some (.jneg n) →
      processCommand env ext (render l) =
        (.ok ("longpress".data), [.longpress id 1000])) ∧
    (∀ n, jlookup ("ms".data) l = some (.jnum n) → wrap32 n ≤ 0 →
      processCommand env ext (render l) =
        (.ok ("longpress".data), [.longpress id 1000])) ∧
    (∀ n, jlookup ("ms".data) l = some (.jnum n) → 0 < n → n < 2147483648 →
      processCommand env ext (render l) =
        (.ok ("longpress".data), [.longpress id n])) := by
  refine ⟨?_, ?_, ?_, ?_, ?_⟩
  · intro hms
    refine longpress_main env ext l id 1000 hwf hcmd hid hidlen hfound ?_
    unfold readMsOr
    rw [readIntKey_render hwf, hms]
    dsimp only
    decide
  · intro s hms
    refine longpress_main env ext l id 1000 hwf hcmd hid hidlen hfound ?_
    unfold readMsOr
    rw [readIntKey_render hwf, hms]
    dsimp only
    rw [if_pos (by decide)]
    decide
  · intro n hms
    refine longpress_main env ext l id 1000 hwf hcmd hid hidlen hfound ?_
    unfold readMsOr
    rw [readIntKey_render hwf, hms]
    dsimp only
    rw [if_pos (by decide)]
    decide
  · intro n hms hle
    refine longpress_main env ext l id 1000 hwf hcmd hid hidlen hfound ?_
    unfold readMsOr
    rw [readIntKey_render hwf, hms]
    dsimp only
    rw [if_pos hle]
    decide
  · intro n hms hpos hsmall
    refine longpress_main env ext l id n hwf hcmd hid hidlen hfound ?_
    unfold readMsOr
    rw [readIntKey_render hwf, hms]
    dsimp only
    rw [wrap32_small hsmall, if_neg (by omega)]

theorem c8_longpress_ms_default_witness :
    processCommand envA extA
      (render [("cmd".data, JVal.jstr ("longpress".data)),
               ("id".data, JVal.jstr ("btn_heart".data))]) =
      (.ok ("longpress".data), [.longpress ("btn_heart".data) 1000]) ∧
    processCommand envA extA
      (render [("cmd".data, JVal.jstr ("longpress".data)),
               ("id".data, JVal.jstr ("btn_heart".data)),
               ("ms".data, JVal.jnum 0)]) =
      (.ok ("longpress".data), [.longpress ("btn_heart".data) 1000]) :=
  ⟨(c8_longpress_ms_default envA extA
      [("cmd".data, JVal.jstr ("longpress".data)),
       ("id".data, JVal.jstr ("btn_heart".data))]
      ("btn_heart".data) (by decide) (by decide) (by decide) (by decide)
      (by decide)).1 (by decide),
   (c8_longpress_ms_default envA extA
      [("cmd".data, JVal.jstr ("longpress".data)),
       ("id".data, JVal.jstr ("btn_heart".data)),
       ("ms".data, JVal.jnum 0)]
      ("btn_heart".data) (by decide) (by decide) (by decide) (by decide)
      (by decide)).2.2.2.1 0 (by decide) (by decide)⟩

/-- Claim C5: a swipe request in which any of x1, y1, x2, y2 is absent or
    carries a non-numeric or minus-signed value decodes to the
    invalid_coordinates error with no effects; an absent key, a string
    value, and a minus-signed value all make the coordinate read fail;
    and a successful coordinate read is never negative, so a negative
    coordinate is not representable on the wire. -/
theorem c5_swipe_invalid_coords (env : Env) (ext : ExtEnv)
    (l : List (List Char × JVal)) (hwf : wfObj l)
    (hcmd : jlookup ("cmd".data) l = some (.jstr ("swipe".data))) :
    ((readNonneg (render l) ("x1".data) = none ∨
      readNonneg (render l) ("y1".data) = none ∨
      readNonneg (render l) ("x2".data) = none ∨
      readNonneg (render l) ("y2".data) = none) →
      processCommand env ext (render l) =
        (.err ("swipe".data) ("invalid_coordinates".data), [])) ∧
    (∀ k, jlookup k l = none → readNonneg (render l) k = none) ∧
    (∀ k s, jlookup k l = some (.jstr s) → readNonneg (render l) k = none) ∧
    (∀ k n, jlookup k l = some (.jneg n) → readNonneg (render l) k = none) ∧
    (∀ line k v, readNonneg line k = some v → 0 ≤ v) := by
  refine ⟨?_, ?_, ?_, ?_, ?_⟩
  · intro hbad
    unfold processCommand
    rw [readStringKey_render 32 hwf, hcmd]
    dsimp only
    rw [truncTo_of_lt (by decide)]
    rw [if_neg (by decide), if_neg (by decide), if_pos rfl]
    rcases hbad with h | h | h | h
    · rw [h]
    · cases h1 : readNonneg (render l) ("x1".data) <;> rw [h] <;> dsimp only
    · cases h1 : readNonneg (render l) ("x1".data) <;>
        cases h2 : readNonneg (render l) ("y1".data) <;> rw [h] <;> dsimp only
    · cases h1 : readNonneg (render l) ("x1".data) <;>
        cases h2 : readNonneg (render l) ("y1".data) <;>
        cases h3 : readNonneg (render l) ("x2".data) <;> rw [h] <;> dsimp only
  · intro k hk
    unfold readNonneg
    rw [readIntKey_render hwf, hk]
  · intro k s hk
    unfold readNonneg
    rw [readIntKey_render hwf, hk]
    dsimp only
    rw [if_pos (by decide)]
  · intro k n hk
    unfold readNonneg
    rw [readIntKey_render hwf, hk]
    dsimp only
    rw [if_pos (by decide)]
  · intro line k v h
    unfold readNonneg at h
    cases hik : readIntKey line k with
    | none => rw [hik] at h; exact Option.noConfusion h
    | some w =>
        rw [hik] at h
        dsimp only at h
        by_cases hw : w < 0
        · rw [if_pos hw] at h
          exact Option.noConfusion h
        · rw [if_neg hw] at h
          injection h with h1
          omega

theorem c5_swipe_invalid_coords_witness :
    processCommand envA extA (render [("cmd".data, JVal.jstr ("swipe".data))]) =
      (.err ("swipe".data) ("invalid_coordinates".data), []) :=
  (c5_swipe_invalid_coords envA extA
      [("cmd".data, JVal.jstr ("swipe".data))] (by decide) (by decide)).1
    (Or.inl (by decide))

theorem jlookup_mem {key : List Char} {l : List (List Char × JVal)}
    {v : JVal} (h : jlookup key l = some v) : (key, v) ∈ l := by
  unfold jlookup at h
  cases ht : jlookupTail key l with
  | none => rw [ht] at h; exact Option.noConfusion h
  | some p =>
      rw [ht] at h
      rw [Option.map_some'] at h
      injection h with h1
      obtain ⟨w, rest⟩ := p
      subst h1
      exact jlookupTail_mem ht

theorem jlookup_of_mem {key : List Char} {l : List (List Char × JVal)}
    {v : JVal} (hnd : (l.map Prod.fst).Nodup) (hm : (key, v) ∈ l) :
    jlookup key l = some v := by
  induction l with
  | nil => exact absurd hm (List.not_mem_nil _)
  | cons p rest ih =>
      obtain ⟨k0, v0⟩ := p
      rw [List.map_cons, List.nodup_cons] at hnd
      unfold jlookup jlookupTail
      by_cases hk : k0 = key
      · subst hk
        rw [if_pos rfl, Option.map_some']
        rcases List.mem_cons.mp hm with he | ht
        · injection he with h1 h2
          rw [h2]
        · exact absurd (List.mem_map_of_mem Prod.fst ht) hnd.1
      · rw [if_neg hk]
        rcases List.mem_cons.mp hm with he | ht
        · injection he with h1 h2
          exact absurd h1.symm hk
        · exact ih hnd.2 ht

theorem jlookup_of_not_mem {key : List Char} {l : List (List Char × JVal)}
    (hm : key ∉ l.map Prod.fst) : jlookup key l = none := by
  induction l with
  | nil => rfl
  | cons p rest ih =>
      obtain ⟨k0, v0⟩ := p
      rw [List.map_cons] at hm
      unfold jlookup jlookupTail
      rw [if_neg (fun he => hm (by rw [he]; exact List.Mem.head _))]
      exact ih (fun ht => hm (List.Mem.tail _ ht))

theorem mem_keys_of_jlookup_ne {key : List Char}
    {l : List (List Char × JVal)} (h : key ∈ l.map Prod.fst) :
    jlookup key l ≠ none := by
  obtain ⟨p, hp, hk⟩ := List.mem_map.mp h
  obtain ⟨k0, v0⟩ := p
  dsimp only at hk
  subst hk
  induction l with
  | nil => exact absurd hp (List.not_mem_nil _)
  | cons q rest ih =>
      obtain ⟨k1, v1⟩ := q
      unfold jlookup jlookupTail
      by_cases hk : k1 = k0
      · rw [if_pos hk, Option.map_some']
        exact Option.noConfusion
      · rw [if_neg hk]
        rcases List.mem_cons.mp hp with he | ht
        · injection he with h1 h2
          exact absurd h1.symm hk
        · exact ih ht (List.mem_map_of_mem Prod.fst ht)

theorem perm_jlookup {l1 l2 : List (List Char × JVal)} (hp : l1.Perm l2)
    (hnd : (l1.map Prod.fst).Nodup) (key : List Char) :
    jlookup key l1 = jlookup key l2 := by
  have hnd2 : (l2.map Prod.fst).Nodup := ((hp.map Prod.fst).nodup_iff).mp hnd
  cases hl : jlookup key l1 with
  | some v =>
      exact (jlookup_of_mem hnd2 (hp.mem_iff.mp (jlookup_mem hl))).symm
  | none =>
      refine (jlookup_of_not_mem ?_).symm
      intro hk2
      exact mem_keys_of_jlookup_ne
        ((List.Perm.mem_iff (hp.map Prod.fst)).mpr hk2) hl

/-- Claim C9: the decoded command of a flat request object with distinct
    keys and string or unsigned-integer values is invariant under
    permutation of its key-value pairs: each key is looked up by a fresh
    scan from the start, so key order on the wire does not affect the
    decoding result. -/
theorem c9_key_order_invariance (env : Env) (ext : ExtEnv)
    (l1 l2 : List (List Char × JVal)) (hwf1 : wfObj l1) (hwf2 : wfObj l2)
    (hperm : l1.Perm l2) (hnd : (l1.map Prod.fst).Nodup) :
    processCommand env ext (render l1) = processCommand env ext (render l2) := by
  have hj : ∀ k, jlookup k l1 = jlookup k l2 := perm_jlookup hperm hnd
  have hs : ∀ k m, readStringKey (render l1) k m = readStringKey (render l2) k m := by
    intro k m
    rw [readStringKey_render m hwf1, readStringKey_render m hwf2, hj]
  have hn : ∀ k, readNonneg (render l1) k = readNonneg (render l2) k := by
    intro k
    unfold readNonneg
    rw [readIntKey_render hwf1, readIntKey_render hwf2, hj]
  have hm : ∀ d, readMsOr (render l1) d = readMsOr (render l2) d := by
    intro d
    unfold readMsOr
    rw [readIntKey_render hwf1, readIntKey_render hwf2, hj]
  unfold processCommand
  simp only [hs, hn, hm]

theorem c9_key_order_invariance_witness :
    processCommand envA extA
      (render [("cmd".data, JVal.jstr ("click".data)),
               ("id".data, JVal.jstr ("btn_heart".data))]) =
    processCommand envA extA
      (render [("id".data, JVal.jstr ("btn_heart".data)),
               ("cmd".data, JVal.jstr ("click".data))]) :=
  c9_key_order_invariance envA extA
    [("cmd".data, JVal.jstr ("click".data)),
     ("id".data, JVal.jstr ("btn_heart".data))]
    [("id".data, JVal.jstr ("btn_heart".data)),
     ("cmd".data, JVal.jstr ("click".data))]
    (by decide) (by decide) (by decide) (by decide)

end UIAuto
